import Mathlib

/-!
Verification development for the `handy_async` pattern-matching I/O library.

The development shallowly embeds the converged iteration of the library:
* `src/pattern/mod.rs` (`Window`, patterns),
* `src/io/async_read.rs` / `src/io/async_write.rs` (primitive and exact transfers),
* `src/io/read_pattern.rs` / `src/io/write_pattern.rs` (pattern readers/writers),
* `src/matcher/async_match.rs` and `src/pattern/async_match_tuple.rs` (combinator
  and tuple state machines).

External byte streams (the `R: Read` / `W: Write` collaborators) are modelled as
event lists: a read either delivers a chunk of bytes, reports `WouldBlock`, or
fails with an I/O error.  Machine bytes are `Nat` values (with `< 256` bounds
stated where relevant).  The `poll`-style state machines are modelled in two
ways: run-to-completion executors with explicit fuel (the external task executor
immediately re-polls on `NotReady`, which consumes the would-block event), and,
for the claims about single polls and double-polling, explicit state-passing
poll functions.
-/

/-- Kinds of `std::io::Error` used by the library (`WouldBlock`, `UnexpectedEof`,
`InvalidData`, `InvalidInput`, `Other`); the textual messages are dropped. -/
inductive ErrorKind where
  | wouldBlock
  | unexpectedEof
  | invalidData
  | invalidInput
  | other
deriving DecidableEq, Repr

/-- One observable behaviour of an external `Read` stream at a single `read` call:
deliver (a prefix of) a chunk of bytes, report `ErrorKind::WouldBlock`, or fail. -/
inductive StreamEvent where
  | chunk (bytes : List Nat)
  | wouldBlock
  | ioErr (k : ErrorKind)
deriving DecidableEq, Repr

/-- Model of an arbitrary external `Read` stream: the list of behaviours it will
exhibit.  An exhausted event list means end-of-stream (`read` returns `Ok(0)`). -/
structure MockStream where
  events : List StreamEvent
deriving DecidableEq, Repr

/-- One `Read::read` call with a destination buffer of capacity `cap`: returns the
bytes delivered (or an error) together with the advanced stream.  A chunk larger
than `cap` is delivered partially, the rest staying at the head of the stream. -/
def MockStream.read (s : MockStream) (cap : Nat) : Except ErrorKind (List Nat) × MockStream :=
  match s.events with
  | [] => (.ok [], s)
  | .chunk bs :: rest =>
      let n := min cap bs.length
      if n = bs.length then (.ok bs, ⟨rest⟩)
      else (.ok (bs.take n), ⟨.chunk (bs.drop n) :: rest⟩)
  | .wouldBlock :: rest => (.error .wouldBlock, ⟨rest⟩)
  | .ioErr k :: rest => (.error k, ⟨rest⟩)

/-- One observable behaviour of an external `Write` sink at a single `write` call:
accept up to `n` bytes, report `WouldBlock`, or fail. -/
inductive SinkEvent where
  | accept (n : Nat)
  | wouldBlock
  | ioErr (k : ErrorKind)
deriving DecidableEq, Repr

/-- Model of an arbitrary external `Write` sink: pending behaviours plus the bytes
written so far.  An exhausted event list accepts everything (like `Vec<u8>`). -/
structure MockSink where
  events : List SinkEvent
  written : List Nat
deriving DecidableEq, Repr

/-- One `Write::write` call with source bytes `bs`: returns the number of bytes
accepted (or an error) together with the advanced sink. -/
def MockSink.write (s : MockSink) (bs : List Nat) : Except ErrorKind Nat × MockSink :=
  match s.events with
  | [] => (.ok bs.length, { s with written := s.written ++ bs })
  | .accept n :: rest =>
      let k := min n bs.length
      (.ok k, { events := rest, written := s.written ++ bs.take k })
  | .wouldBlock :: rest => (.error .wouldBlock, { s with events := rest })
  | .ioErr k :: rest => (.error k, { s with events := rest })

/-- The windowed buffer `pattern::Window<B>`: an owned byte buffer together with
`start`/`end` cursors.  The source field `end` is named `stop` here because `end`
is a Lean keyword. -/
structure Window where
  inner : List Nat
  start : Nat
  stop : Nat
deriving DecidableEq, Repr

/-- Construct the full window over a buffer (`Window::new` / `new_ref` / `new_mut`
all set `start = 0` and `end` to the buffer length). -/
def Window.new (buf : List Nat) : Window :=
  { inner := buf, start := 0, stop := buf.length }

/-- The active region `inner[start..end]` exposed by `Window::as_ref` (and, for the
read side, by `as_mut`, which exposes the same region mutably). -/
def Window.asRef (w : Window) : List Nat :=
  (w.inner.drop w.start).take (w.stop - w.start)

/-- `Window::skip`: advance `start` by `size`.  The source asserts
`start + size <= end`; an assertion failure (panic) is modelled as `none`. -/
def Window.skip (w : Window) (size : Nat) : Option Window :=
  if w.start + size ≤ w.stop then some { w with start := w.start + size } else none

/-- Effect of a successful `read` into `as_mut`: the delivered bytes overwrite the
buffer starting at the window's `start` cursor. -/
def Window.fill (w : Window) (bs : List Nat) : Window :=
  { w with inner := w.inner.take w.start ++ bs ++ w.inner.drop (w.start + bs.length) }

/-- A stream that exhibits only data chunks (no would-block, no errors). -/
def chunkStream (cs : List (List Nat)) : MockStream :=
  ⟨cs.map .chunk⟩

/-- A stream holding exactly the bytes `bs` (a single chunk, or already exhausted). -/
def byteStream (bs : List Nat) : MockStream :=
  ⟨if bs.isEmpty then [] else [.chunk bs]⟩

/-- All chunks of a chunk list are nonempty: reads deliver at least one byte until
the stream is genuinely exhausted. -/
def goodChunks (cs : List (List Nat)) : Prop :=
  ∀ c ∈ cs, c ≠ []

/-- Total number of bytes available in a chunk list. -/
def totalLen (cs : List (List Nat)) : Nat :=
  (cs.map List.length).sum

/-- The first `rem` bytes delivered by a chunk stream, following the read pattern
of the exact-transfer loop (whole chunks, then a final partial chunk). -/
def takeBytesC : List (List Nat) → Nat → List Nat
  | [], _ => []
  | c :: cs, rem =>
      if rem = 0 then []
      else if c.length ≤ rem then c ++ takeBytesC cs (rem - c.length)
      else c.take rem

/-- The chunk list remaining after the exact-transfer loop consumed `rem` bytes. -/
def dropBytesC : List (List Nat) → Nat → List (List Nat)
  | [], _ => []
  | c :: cs, rem =>
      if rem = 0 then c :: cs
      else if c.length ≤ rem then dropBytesC cs (rem - c.length)
      else c.drop rem :: cs

/-- Result of running an I/O state machine to completion: `ready` with the success
state, `errored` with the failure state (an `AsyncError` pairing the owned state
with the error), `timeout` when the fuel ran out, or `panicked` for an assertion
failure. -/
inductive IoRes (α ε : Type) where
  | ready (a : α)
  | errored (e : ε)
  | timeout
  | panicked
deriving DecidableEq, Repr

/-- Executor for `ReadExact` (`io/async_read.rs`): repeatedly drive
`ReadNonEmpty(ReadBytes)` against the window, skipping past delivered bytes,
until the window is empty.  A zero-byte read while the window is nonempty is the
`UnexpectedEof` error of `ReadNonEmpty`; errors carry the reader and the inner
buffer (`map_state` applies `into_inner`).  On `WouldBlock` the executor re-polls
with the retained state. -/
def runReadExact : Nat → MockStream → Window → IoRes (MockStream × List Nat) (MockStream × List Nat × ErrorKind)
  | 0, _, _ => .timeout
  | fuel + 1, r, w =>
      match r.read w.asRef.length with
      | (.error .wouldBlock, r') => runReadExact fuel r' w
      | (.error k, r') => .errored (r', w.inner, k)
      | (.ok bs, r') =>
          let w1 := w.fill bs
          if bs.length = 0 ∧ w1.asRef ≠ [] then .errored (r', w1.inner, .unexpectedEof)
          else
            match w1.skip bs.length with
            | none => .panicked
            | some w2 =>
                if w2.asRef = [] then .ready (r', w2.inner)
                else runReadExact fuel r' w2

/-- Executor for `WriteAll` (`io/async_write.rs`): repeatedly drive `WriteBytes`
on the window's active region; after skipping the accepted bytes, an empty window
is success, a zero-byte acceptance with bytes still pending is `UnexpectedEof`
(carrying the sink and the inner buffer via `into_inner`). -/
def runWriteAll : Nat → MockSink → Window → IoRes (MockSink × List Nat) (MockSink × List Nat × ErrorKind)
  | 0, _, _ => .timeout
  | fuel + 1, s, b =>
      match s.write b.asRef with
      | (.error .wouldBlock, s') => runWriteAll fuel s' b
      | (.error k, s') => .errored (s', b.inner, k)
      | (.ok n, s') =>
          match b.skip n with
          | none => .panicked
          | some b2 =>
              if b2.asRef = [] then .ready (s', b2.inner)
              else if n = 0 then .errored (s', b2.inner, .unexpectedEof)
              else runWriteAll fuel s' b2

/-- UTF-8 continuation byte check (`0x80..=0xBF`). -/
def utf8Cont (c : Nat) : Bool :=
  decide (128 ≤ c ∧ c ≤ 191)

/-- Validity of a byte list as UTF-8, following the table used by
`String::from_utf8` (rejecting overlong forms, surrogates and values beyond
`U+10FFFF`). -/
def utf8Valid : List Nat → Bool
  | [] => true
  | b :: rest =>
      if b ≤ 127 then utf8Valid rest
      else if 194 ≤ b ∧ b ≤ 223 then
        match rest with
        | c1 :: r2 => utf8Cont c1 && utf8Valid r2
        | [] => false
      else if b = 224 then
        match rest with
        | c1 :: c2 :: r3 => decide (160 ≤ c1 ∧ c1 ≤ 191) && utf8Cont c2 && utf8Valid r3
        | _ => false
      else if 225 ≤ b ∧ b ≤ 236 then
        match rest with
        | c1 :: c2 :: r3 => utf8Cont c1 && utf8Cont c2 && utf8Valid r3
        | _ => false
      else if b = 237 then
        match rest with
        | c1 :: c2 :: r3 => decide (128 ≤ c1 ∧ c1 ≤ 159) && utf8Cont c2 && utf8Valid r3
        | _ => false
      else if 238 ≤ b ∧ b ≤ 239 then
        match rest with
        | c1 :: c2 :: r3 => utf8Cont c1 && utf8Cont c2 && utf8Valid r3
        | _ => false
      else if b = 240 then
        match rest with
        | c1 :: c2 :: c3 :: r4 =>
            decide (144 ≤ c1 ∧ c1 ≤ 191) && utf8Cont c2 && utf8Cont c3 && utf8Valid r4
        | _ => false
      else if 241 ≤ b ∧ b ≤ 243 then
        match rest with
        | c1 :: c2 :: c3 :: r4 => utf8Cont c1 && utf8Cont c2 && utf8Cont c3 && utf8Valid r4
        | _ => false
      else if b = 244 then
        match rest with
        | c1 :: c2 :: c3 :: r4 =>
            decide (128 ≤ c1 ∧ c1 ≤ 143) && utf8Cont c2 && utf8Cont c3 && utf8Valid r4
        | _ => false
      else false

/-- Executor for `ReadLine` (`io/read_pattern.rs`): read one byte at a time into
`buf`; at end-of-stream with an empty accumulator fail with `UnexpectedEof`
(message `Cannot read a line`); otherwise stop at a newline byte or at
end-of-stream and validate the accumulated bytes as UTF-8 (`InvalidInput` on
failure).  Errors carry only the reader. -/
def runReadLine : Nat → MockStream → List Nat → IoRes (MockStream × List Nat) (MockStream × ErrorKind)
  | 0, _, _ => .timeout
  | fuel + 1, r, buf =>
      match r.read 1 with
      | (.error .wouldBlock, r') => runReadLine fuel r' buf
      | (.error k, r') => .errored (r', k)
      | (.ok [], r') =>
          if buf = [] then .errored (r', .unexpectedEof)
          else if utf8Valid buf then .ready (r', buf) else .errored (r', .invalidInput)
      | (.ok (b :: _), r') =>
          let buf' := buf ++ [b]
          if b = 10 then
            if utf8Valid buf' then .ready (r', buf') else .errored (r', .invalidInput)
          else runReadLine fuel r' buf'

/-- `Vec::resize(n, 0)`: truncate or zero-extend a buffer to length `n`. -/
def listResize (l : List Nat) (n : Nat) : List Nat :=
  if n ≤ l.length then l.take n else l ++ List.replicate (n - l.length) 0

/-- Executor for `ReadUntil` (`io/read_pattern.rs`): drive `ReadBytes` against a
window over the scan buffer; after each transfer invoke the predicate on the
bytes read so far and the end-of-stream flag.  A predicate value ends the scan
(truncating the buffer); a predicate error or end-of-stream without a value
fails; with a full window the buffer grows — the source computes the capped
`new_len = min(total * 2, max_buffer_size)` and raises the buffer-limit error
when `new_len` equals the current length, but resizes to the uncapped
`total * 2`. -/
def runReadUntil {τ : Type} (pred : List Nat → Bool → Except ErrorKind (Option τ))
    (maxBufferSize : Nat) :
    Nat → MockStream → Window → IoRes (MockStream × (List Nat × τ)) (MockStream × ErrorKind)
  | 0, _, _ => .timeout
  | fuel + 1, r, w =>
      match r.read w.asRef.length with
      | (.error .wouldBlock, r') => runReadUntil pred maxBufferSize fuel r' w
      | (.error k, r') => .errored (r', k)
      | (.ok bs, r') =>
          let isEos := bs.length = 0
          match (w.fill bs).skip bs.length with
          | none => .panicked
          | some b =>
              let total := b.start
              match pred (b.inner.take total) isEos with
              | .error e => .errored (r', e)
              | .ok (some v) => .ready (r', (b.inner.take total, v))
              | .ok none =>
                  if isEos then .errored (r', .unexpectedEof)
                  else if b.asRef = [] then
                    let newLen := min (total * 2) maxBufferSize
                    let inner := b.inner
                    if newLen = inner.length then .errored (r', .other)
                    else
                      match (Window.new (listResize inner (total * 2))).skip total with
                      | none => .panicked
                      | some b' => runReadUntil pred maxBufferSize fuel r' b'
                  else runReadUntil pred maxBufferSize fuel r' b

/-- Executor for `ReadEos` (`io/read_pattern.rs`): run `ReadExact` on a one-byte
buffer; an `UnexpectedEof` error means end-of-stream and yields `Ok(())`, a
delivered byte yields `Err(byte)`, any other error propagates with the reader. -/
def runReadEos (fuel : Nat) (r : MockStream) :
    IoRes (MockStream × Except Nat Unit) (MockStream × ErrorKind) :=
  match runReadExact fuel r (Window.new [0]) with
  | .errored (r', _, .unexpectedEof) => .ready (r', .ok ())
  | .errored (r', _, k) => .errored (r', k)
  | .ready (r', buf) => .ready (r', .error (buf.headD 0))
  | .timeout => .timeout
  | .panicked => .panicked

/-- Byte order of a fixed-width numeric pattern (`combinators::BE` / `LE`). -/
inductive ByteOrder where
  | be
  | le
deriving DecidableEq, Repr

/-- Descriptor of one fixed-width integer pattern from the
`impl_read_fixnum_pattern` / `impl_write_fixnum_pattern` macro families: a byte
width (1 to 8), a signedness, and a byte order.  The float patterns `F32`/`F64`
are deliberately not covered by this descriptor: the read side does implement
them (io/read_pattern.rs lines 351-356, bit-cast reads), but
`impl_write_fixnum_pattern` (io/write_pattern.rs lines 263-337) instantiates
only `u8`..`i64`, and the repository contains no float write impl at all, so
`write_into` does not exist for `F32`/`F64` (see `writeFixnumPatterns`). -/
structure FixnumSpec where
  nbytes : Nat
  signed : Bool
  endian : ByteOrder
deriving DecidableEq, Repr

/-- Big-endian value of a byte list (`byteorder::BigEndian::read_uint`). -/
def beVal (bs : List Nat) : Nat :=
  bs.foldl (fun acc b => acc * 256 + b) 0

/-- Big-endian encoding of `n` into `k` bytes (`byteorder::BigEndian::write_uint`). -/
def natToBe : Nat → Nat → List Nat
  | 0, _ => []
  | k + 1, n => natToBe k (n / 256) ++ [n % 256]

/-- Two's-complement reading of a `w`-bit unsigned value as a signed integer. -/
def toSigned (w : Nat) (n : Nat) : Int :=
  if n < 2 ^ (w - 1) then (n : Int) else (n : Int) - 2 ^ w

/-- Two's-complement `w`-bit encoding of a signed integer. -/
def toUnsigned (w : Nat) (i : Int) : Nat :=
  (i % (2 ^ w : Int)).toNat

/-- Value conversion of a fixnum read pattern: interpret the filled buffer in the
pattern's byte order, sign-extending for the signed patterns
(`byteorder::read_uint` / `read_int`). -/
def decodeFix (s : FixnumSpec) (bs : List Nat) : Int :=
  let n := match s.endian with | .be => beVal bs | .le => beVal bs.reverse
  if s.signed then toSigned (8 * s.nbytes) n else (n : Int)

/-- Buffer produced by a fixnum write pattern: the two's-complement bytes of the
value in the pattern's byte order (`byteorder::write_uint` / `write_int`). -/
def encodeFix (s : FixnumSpec) (v : Int) : List Nat :=
  let n : Nat := if s.signed then toUnsigned (8 * s.nbytes) v else v.toNat
  match s.endian with
  | .be => natToBe s.nbytes n
  | .le => (natToBe s.nbytes n).reverse

/-- Reading a fixnum pattern (`impl_read_fixnum_pattern`): fill a fresh
`Buf([0; size])` via `ReadExact`, then map the buffer through the conversion. -/
def readFixnum (s : FixnumSpec) (fuel : Nat) (r : MockStream) :
    IoRes (MockStream × Int) (MockStream × ErrorKind) :=
  match runReadExact fuel r (Window.new (List.replicate s.nbytes 0)) with
  | .ready (r', buf) => .ready (r', decodeFix s buf)
  | .errored (r', _, k) => .errored (r', k)
  | .timeout => .timeout
  | .panicked => .panicked

/-- Writing a fixnum pattern (`impl_write_fixnum_pattern`): encode the value into
a fixed buffer and drive `WriteAll` over it. -/
def writeFixnum (s : FixnumSpec) (v : Int) (fuel : Nat) (w : MockSink) :
    IoRes (MockSink × List Nat) (MockSink × List Nat × ErrorKind) :=
  runWriteAll fuel w (Window.new (encodeFix s v))

/-- The fixed-width numeric pattern types of `pattern/read.rs` (`U8`..`I64`,
`F32`, `F64`; the multi-byte ones also exist in `BE`/`LE` variants). -/
inductive NumPat where
  | u8
  | i8
  | u16
  | i16
  | u24
  | i24
  | u32
  | i32
  | u40
  | i40
  | u48
  | i48
  | u56
  | i56
  | u64
  | i64
  | f32
  | f64
deriving DecidableEq, Repr

/-- The pattern types instantiating `impl_read_fixnum_pattern`
(io/read_pattern.rs lines 299-356; each multi-byte type also in `BE` and `LE`):
the whole family, floats included. -/
def readFixnumPatterns : List NumPat :=
  [.u8, .i8, .u16, .i16, .u24, .i24, .u32, .i32,
   .u40, .i40, .u48, .i48, .u56, .i56, .u64, .i64, .f32, .f64]

/-- The pattern types instantiating `impl_write_fixnum_pattern`
(io/write_pattern.rs lines 263-337; each multi-byte type also in `BE` and
`LE`): the integer family only.  `F32` and `F64` are absent — no float write
impl exists anywhere in the repository, so `write_into` is undefined for
them. -/
def writeFixnumPatterns : List NumPat :=
  [.u8, .i8, .u16, .i16, .u24, .i24, .u32, .i32,
   .u40, .i40, .u48, .i48, .u56, .i56, .u64, .i64]

/-- Byte width of each numeric pattern type (the `$size` argument of the macro
instantiations). -/
def NumPat.width : NumPat → Nat
  | .u8 | .i8 => 1
  | .u16 | .i16 => 2
  | .u24 | .i24 => 3
  | .u32 | .i32 => 4
  | .u40 | .i40 => 5
  | .u48 | .i48 => 6
  | .u56 | .i56 => 7
  | .u64 | .i64 => 8
  | .f32 => 4
  | .f64 => 8

/-- Signedness of each integer pattern type (whether the macro instantiation
converts through `read_int`/`write_int` rather than `read_uint`/`write_uint`).
The float patterns are not integers; they are excluded from every statement
that consults this field (only the `writeFixnumPatterns` members are). -/
def NumPat.signed : NumPat → Bool
  | .i8 | .i16 | .i24 | .i32 | .i40 | .i48 | .i56 | .i64 => true
  | _ => false

/-- The `FixnumSpec` descriptor of an integer pattern type at a byte order. -/
def NumPat.spec (p : NumPat) (e : ByteOrder) : FixnumSpec :=
  ⟨p.width, p.signed, e⟩

/-- Deep embedding of the read-side pattern language: the leaves
(`Vec<u8>`/`Buf`, fixnum, `Eos`, `Line`, `Until`, `Result`) and the combinators
of `matcher/async_match.rs` (`Map`, `AndThen`, `Then`, `OrElse`, `Or`, `Chain`,
`Option`) together with the tuple patterns of arities 2 to 10
(`pattern/async_match_tuple.rs`).  The index is the pattern's associated
`Value` type. -/
inductive Pat : Type → Type 1 where
  | bufP (bytes : List Nat) : Pat (List Nat)
  | fixnumP (s : FixnumSpec) : Pat Int
  | eosP : Pat (Except Nat Unit)
  | lineP : Pat (List Nat)
  | untilP {τ : Type} (pred : List Nat → Bool → Except ErrorKind (Option τ))
      (minBufferSize maxBufferSize : Nat) : Pat (List Nat × τ)
  | resultP {α : Type} (v : Except ErrorKind α) : Pat α
  | mapP {α β : Type} (p : Pat α) (f : α → β) : Pat β
  | andThenP {α β : Type} (p : Pat α) (f : α → Pat β) : Pat β
  | thenP {α β : Type} (p : Pat α) (f : Except ErrorKind α → Pat β) : Pat β
  | orElseP {α : Type} (p : Pat α) (f : ErrorKind → Pat α) : Pat α
  | orP {α : Type} (p q : Pat α) : Pat α
  | chainP {α β : Type} (p : Pat α) (q : Pat β) : Pat (α × β)
  | noneP {α : Type} : Pat (Option α)
  | someP {α : Type} (p : Pat α) : Pat (Option α)
  | tuple2P {α β : Type} (p : Pat α) (q : Pat β) : Pat (α × β)
  | tuple3P {a b c : Type} : Pat a → Pat b → Pat c → Pat (a × b × c)
  | tuple4P {a b c d : Type} : Pat a → Pat b → Pat c → Pat d → Pat (a × b × c × d)
  | tuple5P {a b c d e : Type} : Pat a → Pat b → Pat c → Pat d → Pat e → Pat (a × b × c × d × e)
  | tuple6P {a b c d e f : Type} :
      Pat a → Pat b → Pat c → Pat d → Pat e → Pat f → Pat (a × b × c × d × e × f)
  | tuple7P {a b c d e f g : Type} :
      Pat a → Pat b → Pat c → Pat d → Pat e → Pat f → Pat g → Pat (a × b × c × d × e × f × g)
  | tuple8P {a b c d e f g h : Type} :
      Pat a → Pat b → Pat c → Pat d → Pat e → Pat f → Pat g → Pat h →
      Pat (a × b × c × d × e × f × g × h)
  | tuple9P {a b c d e f g h i : Type} :
      Pat a → Pat b → Pat c → Pat d → Pat e → Pat f → Pat g → Pat h → Pat i →
      Pat (a × b × c × d × e × f × g × h × i)
  | tuple10P {a b c d e f g h i j : Type} :
      Pat a → Pat b → Pat c → Pat d → Pat e → Pat f → Pat g → Pat h → Pat i → Pat j →
      Pat (a × b × c × d × e × f × g × h × i × j)

/-- Terminal observation of a pattern operation: success pairs the stream with the
value, failure pairs the stream with the error (`AsyncError`), `timeout` stands
for insufficient fuel, `panicked` for an assertion failure. -/
inductive PollOut (α : Type) : Type where
  | ready (r : MockStream) (v : α)
  | errored (r : MockStream) (k : ErrorKind)
  | timeout
  | panicked

/-- Sequencing of terminal observations: continue from a success, propagate
everything else.  This is the shape shared by every phase machine in
`matcher/async_match.rs`. -/
def PollOut.seq {α β : Type} (x : PollOut α) (f : MockStream → α → PollOut β) : PollOut β :=
  match x with
  | .ready r v => f r v
  | .errored r k => .errored r k
  | .timeout => .timeout
  | .panicked => .panicked

/-- Run a bound pattern operation to completion against a stream, mirroring the
`async_match` state machines: leaves delegate to their executors, combinators
thread the stream returned by each sub-operation into the next.  `fuel` bounds
only the primitive read loops. -/
def runPat {α : Type} (p : Pat α) (fuel : Nat) (r : MockStream) : PollOut α :=
  match p with
  | .bufP bytes =>
      match runReadExact fuel r (Window.new bytes) with
      | .ready (r', inner) => .ready r' inner
      | .errored (r', _, k) => .errored r' k
      | .timeout => .timeout
      | .panicked => .panicked
  | .fixnumP s =>
      match readFixnum s fuel r with
      | .ready (r', v) => .ready r' v
      | .errored (r', k) => .errored r' k
      | .timeout => .timeout
      | .panicked => .panicked
  | .eosP =>
      match runReadEos fuel r with
      | .ready (r', v) => .ready r' v
      | .errored (r', k) => .errored r' k
      | .timeout => .timeout
      | .panicked => .panicked
  | .lineP =>
      match runReadLine fuel r [] with
      | .ready (r', v) => .ready r' v
      | .errored (r', k) => .errored r' k
      | .timeout => .timeout
      | .panicked => .panicked
  | .untilP pred minB maxB =>
      match runReadUntil pred maxB fuel r (Window.new (List.replicate minB 0)) with
      | .ready (r', v) => .ready r' v
      | .errored (r', k) => .errored r' k
      | .timeout => .timeout
      | .panicked => .panicked
  | .resultP v =>
      match v with
      | .ok a => .ready r a
      | .error k => .errored r k
  | .mapP p f => (runPat p fuel r).seq fun r' v => .ready r' (f v)
  | .andThenP p f => (runPat p fuel r).seq fun r' v => runPat (f v) fuel r'
  | .thenP p f =>
      match runPat p fuel r with
      | .ready r' v => runPat (f (.ok v)) fuel r'
      | .errored r' k => runPat (f (.error k)) fuel r'
      | .timeout => .timeout
      | .panicked => .panicked
  | .orElseP p f =>
      match runPat p fuel r with
      | .ready r' v => .ready r' v
      | .errored r' k => runPat (f k) fuel r'
      | .timeout => .timeout
      | .panicked => .panicked
  | .orP p q =>
      match runPat p fuel r with
      | .ready r' v => .ready r' v
      | .errored r' _ => runPat q fuel r'
      | .timeout => .timeout
      | .panicked => .panicked
  | .chainP p q =>
      (runPat p fuel r).seq fun r1 v0 =>
        (runPat q fuel r1).seq fun r2 v1 => .ready r2 (v0, v1)
  | .noneP => .ready r none
  | .someP p => (runPat p fuel r).seq fun r' v => .ready r' (some v)
  | .tuple2P p q =>
      (runPat p fuel r).seq fun r1 v0 =>
        (runPat q fuel r1).seq fun r2 v1 => .ready r2 (v0, v1)
  | .tuple3P p1 p2 p3 =>
      (runPat p1 fuel r).seq fun r1 v1 =>
        (runPat p2 fuel r1).seq fun r2 v2 =>
          (runPat p3 fuel r2).seq fun r3 v3 => .ready r3 (v1, v2, v3)
  | .tuple4P p1 p2 p3 p4 =>
      (runPat p1 fuel r).seq fun r1 v1 =>
        (runPat p2 fuel r1).seq fun r2 v2 =>
          (runPat p3 fuel r2).seq fun r3 v3 =>
            (runPat p4 fuel r3).seq fun r4 v4 => .ready r4 (v1, v2, v3, v4)
  | .tuple5P p1 p2 p3 p4 p5 =>
      (runPat p1 fuel r).seq fun r1 v1 =>
        (runPat p2 fuel r1).seq fun r2 v2 =>
          (runPat p3 fuel r2).seq fun r3 v3 =>
            (runPat p4 fuel r3).seq fun r4 v4 =>
              (runPat p5 fuel r4).seq fun r5 v5 => .ready r5 (v1, v2, v3, v4, v5)
  | .tuple6P p1 p2 p3 p4 p5 p6 =>
      (runPat p1 fuel r).seq fun r1 v1 =>
        (runPat p2 fuel r1).seq fun r2 v2 =>
          (runPat p3 fuel r2).seq fun r3 v3 =>
            (runPat p4 fuel r3).seq fun r4 v4 =>
              (runPat p5 fuel r4).seq fun r5 v5 =>
                (runPat p6 fuel r5).seq fun r6 v6 => .ready r6 (v1, v2, v3, v4, v5, v6)
  | .tuple7P p1 p2 p3 p4 p5 p6 p7 =>
      (runPat p1 fuel r).seq fun r1 v1 =>
        (runPat p2 fuel r1).seq fun r2 v2 =>
          (runPat p3 fuel r2).seq fun r3 v3 =>
            (runPat p4 fuel r3).seq fun r4 v4 =>
              (runPat p5 fuel r4).seq fun r5 v5 =>
                (runPat p6 fuel r5).seq fun r6 v6 =>
                  (runPat p7 fuel r6).seq fun r7 v7 => .ready r7 (v1, v2, v3, v4, v5, v6, v7)
  | .tuple8P p1 p2 p3 p4 p5 p6 p7 p8 =>
      (runPat p1 fuel r).seq fun r1 v1 =>
        (runPat p2 fuel r1).seq fun r2 v2 =>
          (runPat p3 fuel r2).seq fun r3 v3 =>
            (runPat p4 fuel r3).seq fun r4 v4 =>
              (runPat p5 fuel r4).seq fun r5 v5 =>
                (runPat p6 fuel r5).seq fun r6 v6 =>
                  (runPat p7 fuel r6).seq fun r7 v7 =>
                    (runPat p8 fuel r7).seq fun r8 v8 =>
                      .ready r8 (v1, v2, v3, v4, v5, v6, v7, v8)
  | .tuple9P p1 p2 p3 p4 p5 p6 p7 p8 p9 =>
      (runPat p1 fuel r).seq fun r1 v1 =>
        (runPat p2 fuel r1).seq fun r2 v2 =>
          (runPat p3 fuel r2).seq fun r3 v3 =>
            (runPat p4 fuel r3).seq fun r4 v4 =>
              (runPat p5 fuel r4).seq fun r5 v5 =>
                (runPat p6 fuel r5).seq fun r6 v6 =>
                  (runPat p7 fuel r6).seq fun r7 v7 =>
                    (runPat p8 fuel r7).seq fun r8 v8 =>
                      (runPat p9 fuel r8).seq fun r9 v9 =>
                        .ready r9 (v1, v2, v3, v4, v5, v6, v7, v8, v9)
  | .tuple10P p1 p2 p3 p4 p5 p6 p7 p8 p9 p10 =>
      (runPat p1 fuel r).seq fun r1 v1 =>
        (runPat p2 fuel r1).seq fun r2 v2 =>
          (runPat p3 fuel r2).seq fun r3 v3 =>
            (runPat p4 fuel r3).seq fun r4 v4 =>
              (runPat p5 fuel r4).seq fun r5 v5 =>
                (runPat p6 fuel r5).seq fun r6 v6 =>
                  (runPat p7 fuel r6).seq fun r7 v7 =>
                    (runPat p8 fuel r7).seq fun r8 v8 =>
                      (runPat p9 fuel r8).seq fun r9 v9 =>
                        (runPat p10 fuel r9).seq fun r10 v10 =>
                          .ready r10 (v1, v2, v3, v4, v5, v6, v7, v8, v9, v10)

/-- Result of a single `poll` call on a stored future: `ready`/`errored` are the
terminal outcomes, `notReady` is the suspension signal (`Async::NotReady`),
`panicked` models the `expect`/`panic!` on a consumed state, `timeout` stands for
exhausted fuel inside a single poll. -/
inductive StepRes (ι ε : Type) where
  | ready (v : ι)
  | notReady
  | errored (e : ε)
  | panicked
  | timeout
deriving DecidableEq, Repr

/-- One poll of `ReadBytes` (`io/async_read.rs`): `self.0.take().expect(..)` — a
consumed state panics; a would-block read stores the stream and buffer back and
reports `NotReady`; otherwise the state stays consumed and the result carries
stream, buffer and byte count (or the error). -/
def readBytesStep :
    Option (MockStream × List Nat) →
    StepRes (MockStream × List Nat × Nat) (MockStream × List Nat × ErrorKind) ×
      Option (MockStream × List Nat)
  | none => (.panicked, none)
  | some (r, buf) =>
      match r.read buf.length with
      | (.ok bs, r') => (.ready (r', bs ++ buf.drop bs.length, bs.length), none)
      | (.error .wouldBlock, r') => (.notReady, some (r', buf))
      | (.error k, r') => (.errored (r', buf, k), none)

/-- One poll of `WriteBytes` (`io/async_write.rs`), symmetric to `readBytesStep`. -/
def writeBytesStep :
    Option (MockSink × List Nat) →
    StepRes (MockSink × List Nat × Nat) (MockSink × List Nat × ErrorKind) ×
      Option (MockSink × List Nat)
  | none => (.panicked, none)
  | some (s, buf) =>
      match s.write buf with
      | (.ok n, s') => (.ready (s', buf, n), none)
      | (.error .wouldBlock, s') => (.notReady, some (s', buf))
      | (.error k, s') => (.errored (s', buf, k), none)

/-- One poll of the `ReadBuf` future (`ReadExact` over a `Buf` pattern,
`io/read_pattern.rs`): the stored state is the inner `ReadBytes` state; the
`while let Ready` loop runs inside the single poll, storing the state back only
on would-block.  Terminal outcomes leave the inner `ReadBytes` consumed, so a
later poll panics. -/
def readBufStep :
    Nat → Option (MockStream × Window) →
    StepRes (MockStream × List Nat) (MockStream × ErrorKind) × Option (MockStream × Window)
  | _, none => (.panicked, none)
  | 0, some st => (.timeout, some st)
  | fuel + 1, some (r, w) =>
      match r.read w.asRef.length with
      | (.error .wouldBlock, r') => (.notReady, some (r', w))
      | (.error k, r') => (.errored (r', k), none)
      | (.ok bs, r') =>
          let w1 := w.fill bs
          if bs.length = 0 ∧ w1.asRef ≠ [] then (.errored (r', .unexpectedEof), none)
          else
            match w1.skip bs.length with
            | none => (.panicked, none)
            | some w2 =>
                if w2.asRef = [] then (.ready (r', w2.inner), none)
                else readBufStep fuel (some (r', w2))

/-- State of the `MatchAndThen` phase machine (`matcher/async_match.rs`)
instantiated with buffer sub-patterns: phase A holds the first `ReadBuf` future
and the continuation (which picks the next buffer pattern from the first value),
phase B holds the second `ReadBuf` future, and `polled` is the sentinel left
behind by `Phase::take`. -/
inductive AndThenState where
  | phaseA (st : Option (MockStream × Window)) (f : List Nat → List Nat)
  | phaseB (st : Option (MockStream × Window))
  | polled

/-- One poll of `MatchAndThen` (`matcher/async_match.rs`): `self.0.take()`
replaces the state with the `Polled` sentinel, which panics if polled;
phase A drives the first sub-future (errors propagate through `?` leaving the
sentinel), and on success binds the continuation's pattern to the returned
stream and immediately polls phase B (`self.poll()`). -/
def andThenStep (fuel : Nat) : AndThenState → StepRes (MockStream × List Nat) (MockStream × ErrorKind) × AndThenState
  | .polled => (.panicked, .polled)
  | .phaseA st f =>
      match readBufStep fuel st with
      | (.notReady, st') => (.notReady, .phaseA st' f)
      | (.errored e, _) => (.errored e, .polled)
      | (.panicked, _) => (.panicked, .polled)
      | (.timeout, st') => (.timeout, .phaseA st' f)
      | (.ready (m, v0), _) =>
          match readBufStep fuel (some (m, Window.new (f v0))) with
          | (.notReady, st1) => (.notReady, .phaseB st1)
          | (.errored e, _) => (.errored e, .polled)
          | (.panicked, _) => (.panicked, .polled)
          | (.timeout, st1) => (.timeout, .phaseB st1)
          | (.ready out, _) => (.ready out, .polled)
  | .phaseB st =>
      match readBufStep fuel st with
      | (.notReady, st') => (.notReady, .phaseB st')
      | (.errored e, _) => (.errored e, .polled)
      | (.panicked, _) => (.panicked, .polled)
      | (.timeout, st') => (.timeout, .phaseB st')
      | (.ready out, _) => (.ready out, .polled)

/-- A terminal poll result: a final success or a final failure (not a suspension,
panic, or exhausted fuel). -/
def StepRes.isTerminal {ι ε : Type} : StepRes ι ε → Prop
  | .ready _ => True
  | .errored _ => True
  | _ => False

/-- A single observable read call relates a stream to its advanced state. -/
def readAdvance (r r' : MockStream) : Prop :=
  ∃ cap, r' = (MockStream.read r cap).2

/-- The stream `r'` is the stream `r` after a (possibly empty) sequence of read
calls: the operation machinery threaded the very stream it was bound to. -/
def Reaches (r r' : MockStream) : Prop :=
  Relation.ReflTransGen readAdvance r r'

/-- A single observable write call relates a sink to its advanced state. -/
def writeAdvance (w w' : MockSink) : Prop :=
  ∃ bs, w' = (MockSink.write w bs).2

/-- The sink `w'` is the sink `w` after a (possibly empty) sequence of write
calls. -/
def SinkReaches (w w' : MockSink) : Prop :=
  Relation.ReflTransGen writeAdvance w w'

/-- The terminal outcome of a read-side I/O state machine hands back a stream
reachable from the bound one (trivially satisfied by the non-terminal
outcomes). -/
def streamKept {α ε : Type} (r : MockStream) : IoRes (MockStream × α) (MockStream × ε) → Prop
  | .ready (r', _) => Reaches r r'
  | .errored (r', _) => Reaches r r'
  | .timeout => True
  | .panicked => True

/-- The terminal outcome of a bound pattern operation hands back a stream
reachable from the bound one. -/
def pollKept {α : Type} (r : MockStream) : PollOut α → Prop
  | .ready r' _ => Reaches r r'
  | .errored r' _ => Reaches r r'
  | .timeout => True
  | .panicked => True

/-- The terminal outcome of a write-side I/O state machine hands back a sink
reachable from the bound one. -/
def sinkKept {α ε : Type} (s : MockSink) : IoRes (MockSink × α) (MockSink × ε) → Prop
  | .ready (s', _) => SinkReaches s s'
  | .errored (s', _) => SinkReaches s s'
  | .timeout => True
  | .panicked => True

theorem PollOut.seq_ready {α β : Type} (r : MockStream) (v : α) (f : MockStream → α → PollOut β) :
    (PollOut.ready r v).seq f = f r v := rfl

theorem PollOut.seq_assoc {α β γ : Type} (x : PollOut α) (f : MockStream → α → PollOut β)
    (g : MockStream → β → PollOut γ) :
    (x.seq f).seq g = x.seq fun r v => (f r v).seq g := by
  cases x <;> rfl

/-- C9: for every tuple pattern of arity 2 through 10, matching the tuple against
a stream is equivalent to matching the left-nested application of the `Chain`
combinator over its sub-patterns followed by a final flattening map: the
sub-patterns are driven strictly in order, each bound to the stream returned by
the previous one, and the final value is the tuple of their values. -/
theorem c9_tuples_are_nested_chains :
    (∀ (a b : Type) (p1 : Pat a) (p2 : Pat b) (fuel : Nat) (r : MockStream),
      runPat (.tuple2P p1 p2) fuel r =
        runPat (.mapP (.chainP p1 p2) (fun v => (v.1, v.2))) fuel r) ∧
    (∀ (a b c : Type) (p1 : Pat a) (p2 : Pat b) (p3 : Pat c) (fuel : Nat) (r : MockStream),
      runPat (.tuple3P p1 p2 p3) fuel r =
        runPat (.mapP (.chainP (.chainP p1 p2) p3)
          (fun v => (v.1.1, v.1.2, v.2))) fuel r) ∧
    (∀ (a b c d : Type) (p1 : Pat a) (p2 : Pat b) (p3 : Pat c) (p4 : Pat d)
        (fuel : Nat) (r : MockStream),
      runPat (.tuple4P p1 p2 p3 p4) fuel r =
        runPat (.mapP (.chainP (.chainP (.chainP p1 p2) p3) p4)
          (fun v => (v.1.1.1, v.1.1.2, v.1.2, v.2))) fuel r) ∧
    (∀ (a b c d e : Type) (p1 : Pat a) (p2 : Pat b) (p3 : Pat c) (p4 : Pat d) (p5 : Pat e)
        (fuel : Nat) (r : MockStream),
      runPat (.tuple5P p1 p2 p3 p4 p5) fuel r =
        runPat (.mapP (.chainP (.chainP (.chainP (.chainP p1 p2) p3) p4) p5)
          (fun v => (v.1.1.1.1, v.1.1.1.2, v.1.1.2, v.1.2, v.2))) fuel r) ∧
    (∀ (a b c d e f : Type) (p1 : Pat a) (p2 : Pat b) (p3 : Pat c) (p4 : Pat d) (p5 : Pat e)
        (p6 : Pat f) (fuel : Nat) (r : MockStream),
      runPat (.tuple6P p1 p2 p3 p4 p5 p6) fuel r =
        runPat (.mapP (.chainP (.chainP (.chainP (.chainP (.chainP p1 p2) p3) p4) p5) p6)
          (fun v => (v.1.1.1.1.1, v.1.1.1.1.2, v.1.1.1.2, v.1.1.2, v.1.2, v.2))) fuel r) ∧
    (∀ (a b c d e f g : Type) (p1 : Pat a) (p2 : Pat b) (p3 : Pat c) (p4 : Pat d) (p5 : Pat e)
        (p6 : Pat f) (p7 : Pat g) (fuel : Nat) (r : MockStream),
      runPat (.tuple7P p1 p2 p3 p4 p5 p6 p7) fuel r =
        runPat (.mapP
          (.chainP (.chainP (.chainP (.chainP (.chainP (.chainP p1 p2) p3) p4) p5) p6) p7)
          (fun v => (v.1.1.1.1.1.1, v.1.1.1.1.1.2, v.1.1.1.1.2, v.1.1.1.2, v.1.1.2,
            v.1.2, v.2))) fuel r) ∧
    (∀ (a b c d e f g h : Type) (p1 : Pat a) (p2 : Pat b) (p3 : Pat c) (p4 : Pat d) (p5 : Pat e)
        (p6 : Pat f) (p7 : Pat g) (p8 : Pat h) (fuel : Nat) (r : MockStream),
      runPat (.tuple8P p1 p2 p3 p4 p5 p6 p7 p8) fuel r =
        runPat (.mapP
          (.chainP (.chainP (.chainP (.chainP (.chainP (.chainP (.chainP p1 p2) p3) p4) p5)
            p6) p7) p8)
          (fun v => (v.1.1.1.1.1.1.1, v.1.1.1.1.1.1.2, v.1.1.1.1.1.2, v.1.1.1.1.2,
            v.1.1.1.2, v.1.1.2, v.1.2, v.2))) fuel r) ∧
    (∀ (a b c d e f g h i : Type) (p1 : Pat a) (p2 : Pat b) (p3 : Pat c) (p4 : Pat d)
        (p5 : Pat e) (p6 : Pat f) (p7 : Pat g) (p8 : Pat h) (p9 : Pat i)
        (fuel : Nat) (r : MockStream),
      runPat (.tuple9P p1 p2 p3 p4 p5 p6 p7 p8 p9) fuel r =
        runPat (.mapP
          (.chainP (.chainP (.chainP (.chainP (.chainP (.chainP (.chainP (.chainP p1 p2) p3)
            p4) p5) p6) p7) p8) p9)
          (fun v => (v.1.1.1.1.1.1.1.1, v.1.1.1.1.1.1.1.2, v.1.1.1.1.1.1.2, v.1.1.1.1.1.2,
            v.1.1.1.1.2, v.1.1.1.2, v.1.1.2, v.1.2, v.2))) fuel r) ∧
    (∀ (a b c d e f g h i j : Type) (p1 : Pat a) (p2 : Pat b) (p3 : Pat c) (p4 : Pat d)
        (p5 : Pat e) (p6 : Pat f) (p7 : Pat g) (p8 : Pat h) (p9 : Pat i) (p10 : Pat j)
        (fuel : Nat) (r : MockStream),
      runPat (.tuple10P p1 p2 p3 p4 p5 p6 p7 p8 p9 p10) fuel r =
        runPat (.mapP
          (.chainP (.chainP (.chainP (.chainP (.chainP (.chainP (.chainP (.chainP
            (.chainP p1 p2) p3) p4) p5) p6) p7) p8) p9) p10)
          (fun v => (v.1.1.1.1.1.1.1.1.1, v.1.1.1.1.1.1.1.1.2, v.1.1.1.1.1.1.1.2,
            v.1.1.1.1.1.1.2, v.1.1.1.1.1.2, v.1.1.1.1.2, v.1.1.1.2, v.1.1.2, v.1.2,
            v.2))) fuel r) := by
  refine ⟨?_, ?_, ?_, ?_, ?_, ?_, ?_, ?_, ?_⟩ <;>
    · intros
      simp only [runPat, PollOut.seq_assoc, PollOut.seq_ready]

/-- C8: for every windowed buffer W and amounts n1, n2 with n1 + n2 not exceeding
the window's remaining size, `W.skip(n1).skip(n2)` produces the same window as
`W.skip(n1+n2)`; and a skip past the window's end is an assertion failure
(modelled as `none`), not a recoverable error. -/
theorem c8_window_skip_assoc (w : Window) (n1 n2 : Nat) :
    (w.start + n1 + n2 ≤ w.stop →
      (w.skip n1).bind (fun w1 => w1.skip n2) = w.skip (n1 + n2)) ∧
    (∀ n, w.stop < w.start + n → w.skip n = none) := by
  constructor
  · intro h
    have h1 : w.start + n1 ≤ w.stop := by omega
    have h3 : w.start + (n1 + n2) ≤ w.stop := by omega
    simp [Window.skip, h1, h, h3, Nat.add_assoc]
  · intro n h
    simp [Window.skip]
    omega

/-- C8 witness: the skip laws at a concrete three-byte window. -/
theorem c8_window_skip_assoc_witness :
    ((Window.new [7, 8, 9]).start + 1 + 1 ≤ (Window.new [7, 8, 9]).stop ∧
      ((Window.new [7, 8, 9]).skip 1).bind (fun w1 => w1.skip 1) =
        (Window.new [7, 8, 9]).skip (1 + 1)) ∧
    ((Window.new [7, 8, 9]).stop < (Window.new [7, 8, 9]).start + 5 ∧
      (Window.new [7, 8, 9]).skip 5 = none) :=
  ⟨⟨by decide, (c8_window_skip_assoc (Window.new [7, 8, 9]) 1 1).1 (by decide)⟩,
   ⟨by decide, (c8_window_skip_assoc (Window.new [7, 8, 9]) 1 1).2 5 (by decide)⟩⟩

/-- C4: a poll of the primitive transfer operations on a stream/sink whose next
behaviour is would-block returns `NotReady` with the stream and the buffer both
retained unchanged inside the operation (only the would-block signal itself is
consumed from the external stream), and the would-block condition is not
returned as an error. -/
theorem c4_would_block_retains_state (rest : List StreamEvent) (buf : List Nat)
    (srest : List SinkEvent) (written sbuf : List Nat) :
    readBytesStep (some (⟨.wouldBlock :: rest⟩, buf)) = (.notReady, some (⟨rest⟩, buf)) ∧
    writeBytesStep (some (⟨.wouldBlock :: srest, written⟩, sbuf)) =
      (.notReady, some (⟨srest, written⟩, sbuf)) := by
  constructor <;> rfl

theorem readBytesStep_terminal_consumed
    (st : Option (MockStream × List Nat)) (res : StepRes (MockStream × List Nat × Nat) (MockStream × List Nat × ErrorKind))
    (st' : Option (MockStream × List Nat)) (h : readBytesStep st = (res, st'))
    (ht : res.isTerminal) : st' = none := by
  match st with
  | none =>
      simp [readBytesStep] at h
      rw [← h.1] at ht
      simp [StepRes.isTerminal] at ht
  | some (r, buf) =>
      rcases hrd : r.read buf.length with ⟨q, r'⟩
      simp [readBytesStep, hrd] at h
      match q with
      | .ok bs => simp at h; exact h.2.symm
      | .error .wouldBlock =>
          simp at h
          rw [← h.1] at ht
          simp [StepRes.isTerminal] at ht
      | .error .unexpectedEof => simp at h; exact h.2.symm
      | .error .invalidData => simp at h; exact h.2.symm
      | .error .invalidInput => simp at h; exact h.2.symm
      | .error .other => simp at h; exact h.2.symm

theorem writeBytesStep_terminal_consumed
    (st : Option (MockSink × List Nat)) (res : StepRes (MockSink × List Nat × Nat) (MockSink × List Nat × ErrorKind))
    (st' : Option (MockSink × List Nat)) (h : writeBytesStep st = (res, st'))
    (ht : res.isTerminal) : st' = none := by
  match st with
  | none =>
      simp [writeBytesStep] at h
      rw [← h.1] at ht
      simp [StepRes.isTerminal] at ht
  | some (s, buf) =>
      rcases hwr : s.write buf with ⟨q, s'⟩
      simp [writeBytesStep, hwr] at h
      match q with
      | .ok n => simp at h; exact h.2.symm
      | .error .wouldBlock =>
          simp at h
          rw [← h.1] at ht
          simp [StepRes.isTerminal] at ht
      | .error .unexpectedEof => simp at h; exact h.2.symm
      | .error .invalidData => simp at h; exact h.2.symm
      | .error .invalidInput => simp at h; exact h.2.symm
      | .error .other => simp at h; exact h.2.symm

theorem readBufStep_terminal_consumed :
    ∀ (fuel : Nat) (st : Option (MockStream × Window))
      (res : StepRes (MockStream × List Nat) (MockStream × ErrorKind))
      (st' : Option (MockStream × Window)),
      readBufStep fuel st = (res, st') → res.isTerminal → st' = none := by
  intro fuel
  induction fuel with
  | zero =>
      intro st res st' h ht
      match st with
      | none =>
          simp [readBufStep] at h
          rw [← h.1] at ht
          simp [StepRes.isTerminal] at ht
      | some s =>
          simp [readBufStep] at h
          rw [← h.1] at ht
          simp [StepRes.isTerminal] at ht
  | succ n ih =>
      intro st res st' h ht
      match st with
      | none =>
          simp [readBufStep] at h
          rw [← h.1] at ht
          simp [StepRes.isTerminal] at ht
      | some (r, w) =>
          rcases hrd : r.read w.asRef.length with ⟨q, r'⟩
          simp only [readBufStep, hrd] at h
          match q with
          | .error .wouldBlock =>
              simp at h
              rw [← h.1] at ht
              simp [StepRes.isTerminal] at ht
          | .error .unexpectedEof => simp at h; exact h.2.symm
          | .error .invalidData => simp at h; exact h.2.symm
          | .error .invalidInput => simp at h; exact h.2.symm
          | .error .other => simp at h; exact h.2.symm
          | .ok bs =>
              simp only at h
              by_cases hz : bs.length = 0 ∧ ((w.fill bs).asRef ≠ [])
              · rw [if_pos hz] at h
                simp at h
                exact h.2.symm
              · rw [if_neg hz] at h
                rcases hskip : (w.fill bs).skip bs.length with _ | w2
                · rw [hskip] at h
                  simp at h
                  rw [← h.1] at ht
                  simp [StepRes.isTerminal] at ht
                · rw [hskip] at h
                  by_cases hem : w2.asRef = []
                  · simp [hem] at h
                    exact h.2.symm
                  · simp only [hem] at h
                    rw [if_neg not_false] at h
                    exact ih _ _ _ h ht

theorem andThenStep_terminal_polled
    (fuel : Nat) (st : AndThenState)
    (res : StepRes (MockStream × List Nat) (MockStream × ErrorKind)) (st' : AndThenState)
    (h : andThenStep fuel st = (res, st')) (ht : res.isTerminal) : st' = .polled := by
  match st with
  | .polled =>
      simp [andThenStep] at h
      rw [← h.1] at ht
      simp [StepRes.isTerminal] at ht
  | .phaseB st1 =>
      rcases h1 : readBufStep fuel st1 with ⟨res1, st1'⟩
      simp only [andThenStep, h1] at h
      match res1 with
      | .notReady =>
          simp at h
          rw [← h.1] at ht
          simp [StepRes.isTerminal] at ht
      | .timeout =>
          simp at h
          rw [← h.1] at ht
          simp [StepRes.isTerminal] at ht
      | .errored e => simp at h; exact h.2.symm
      | .panicked => simp at h; exact h.2.symm
      | .ready out => simp at h; exact h.2.symm
  | .phaseA st0 f =>
      rcases h0 : readBufStep fuel st0 with ⟨res0, st0'⟩
      simp only [andThenStep, h0] at h
      match res0 with
      | .notReady =>
          simp at h
          rw [← h.1] at ht
          simp [StepRes.isTerminal] at ht
      | .timeout =>
          simp at h
          rw [← h.1] at ht
          simp [StepRes.isTerminal] at ht
      | .errored e => simp at h; exact h.2.symm
      | .panicked => simp at h; exact h.2.symm
      | .ready (m, v0) =>
          rcases h1 : readBufStep fuel (some (m, Window.new (f v0))) with ⟨res1, st1⟩
          simp only [h1] at h
          match res1 with
          | .notReady =>
              simp at h
              rw [← h.1] at ht
              simp [StepRes.isTerminal] at ht
          | .timeout =>
              simp at h
              rw [← h.1] at ht
              simp [StepRes.isTerminal] at ht
          | .errored e => simp at h; exact h.2.symm
          | .panicked => simp at h; exact h.2.symm
          | .ready out => simp at h; exact h.2.symm

/-- C5: polling an operation again after it has already yielded a terminal result
(success or failure) panics deterministically rather than returning a second
result or silently doing nothing: a terminal poll always leaves the consumed
sentinel state (`None` for the `take`-based primitives, `Phase::Polled` for the
combinator phase machines), and polling the sentinel panics.  Shown for the
primitive transfers `ReadBytes`/`WriteBytes`, the exact-transfer pattern future
`ReadBuf`, and the `MatchAndThen` combinator machine. -/
theorem c5_double_poll_panics :
    (∀ (st : Option (MockStream × List Nat)) res st',
      readBytesStep st = (res, st') → res.isTerminal →
        readBytesStep st' = (.panicked, none)) ∧
    (∀ (st : Option (MockSink × List Nat)) res st',
      writeBytesStep st = (res, st') → res.isTerminal →
        writeBytesStep st' = (.panicked, none)) ∧
    (∀ (fuel : Nat) (st : Option (MockStream × Window)) res st',
      readBufStep fuel st = (res, st') → res.isTerminal →
        ∀ fuel2, readBufStep fuel2 st' = (.panicked, none)) ∧
    (∀ (fuel : Nat) (st : AndThenState) res st',
      andThenStep fuel st = (res, st') → res.isTerminal →
        ∀ fuel2, andThenStep fuel2 st' = (.panicked, .polled)) := by
  refine ⟨?_, ?_, ?_, ?_⟩
  · intro st res st' h ht
    rw [readBytesStep_terminal_consumed st res st' h ht]
    rfl
  · intro st res st' h ht
    rw [writeBytesStep_terminal_consumed st res st' h ht]
    rfl
  · intro fuel st res st' h ht fuel2
    rw [readBufStep_terminal_consumed fuel st res st' h ht]
    cases fuel2 <;> rfl
  · intro fuel st res st' h ht fuel2
    rw [andThenStep_terminal_polled fuel st res st' h ht]
    rfl

/-- C5 witness: concrete first polls that terminate, after which the second poll
panics, for all four modelled operations. -/
theorem c5_double_poll_panics_witness :
    (readBytesStep (some (⟨[]⟩, [0])) = (.ready (⟨[]⟩, [0], 0), none) ∧
      readBytesStep none = (.panicked, none)) ∧
    (writeBytesStep (some (⟨[], []⟩, [1])) = (.ready (⟨[], [1]⟩, [1], 1), none) ∧
      writeBytesStep none = (.panicked, none)) ∧
    (readBufStep 1 (some (⟨[]⟩, Window.new [0])) = (.errored (⟨[]⟩, .unexpectedEof), none) ∧
      readBufStep 3 none = (.panicked, none)) ∧
    (andThenStep 1 (.phaseA (some (⟨[.chunk [5]]⟩, Window.new [0])) (fun v => v)) =
        (.errored (⟨[]⟩, .unexpectedEof), .polled) ∧
      andThenStep 3 .polled = (.panicked, .polled)) :=
  ⟨⟨rfl, c5_double_poll_panics.1 (some (⟨[]⟩, [0])) _ _ rfl trivial⟩,
   ⟨rfl, c5_double_poll_panics.2.1 (some (⟨[], []⟩, [1])) _ _ rfl trivial⟩,
   ⟨rfl, c5_double_poll_panics.2.2.1 1 (some (⟨[]⟩, Window.new [0])) _ _ rfl trivial 3⟩,
   ⟨rfl, c5_double_poll_panics.2.2.2 1
      (.phaseA (some (⟨[.chunk [5]]⟩, Window.new [0])) (fun v => v)) _ _ rfl trivial 3⟩⟩

/-- C6: evaluation of the `Until` scan at a failing input.  With
`min_buffer_size = 1` and `max_buffer_size = 3` and a predicate that succeeds
only once at least 4 bytes have been scanned, the operation resizes the scan
buffer to `total_read_size * 2 = 4` bytes — past the configured maximum of 3 —
and succeeds with a 4-byte scanned buffer instead of raising the buffer-limit
error: the capped `new_len` is computed but not used for the resize. -/
theorem c6_until_exceeds_max_buffer :
    runReadUntil (fun bs _ => .ok (if 4 ≤ bs.length then some bs.length else none)) 3 10
        (chunkStream [[9, 8, 7, 6, 5, 4]]) (Window.new (List.replicate 1 0)) =
      .ready (chunkStream [[5, 4]], ([9, 8, 7, 6], 4)) ∧
    ([9, 8, 7, 6] : List Nat).length > 3 := by
  constructor
  · rfl
  · decide

theorem dropBytesC_zero (cs : List (List Nat)) : dropBytesC cs 0 = cs := by
  cases cs <;> simp [dropBytesC]

theorem takeBytesC_zero (cs : List (List Nat)) : takeBytesC cs 0 = [] := by
  cases cs <;> simp [takeBytesC]

theorem totalLen_cons (c : List Nat) (cs : List (List Nat)) :
    totalLen (c :: cs) = c.length + totalLen cs := by
  simp [totalLen]

theorem window_asRef_drop (inner : List Nat) (start : Nat) :
    (Window.mk inner start inner.length).asRef = inner.drop start :=
  List.take_of_length_le (by simp [Window.asRef])

theorem window_asRef_length (inner : List Nat) (start : Nat) :
    (Window.mk inner start inner.length).asRef.length = inner.length - start := by
  rw [window_asRef_drop]
  simp



theorem runReadExact_step_block (f : Nat) (r : MockStream) (w : Window) (r' : MockStream)
    (hrd : r.read w.asRef.length = (.error .wouldBlock, r')) :
    runReadExact (f + 1) r w = runReadExact f r' w := by
  simp only [runReadExact]
  split
  · next r'' heq => rw [hrd] at heq; simp at heq; rw [heq]
  · next k r'' hnm heq => rw [hrd] at heq; simp at heq; exact absurd heq.1.symm hnm
  · next bs r'' heq => rw [hrd] at heq; simp at heq

theorem runReadExact_step_err (f : Nat) (r : MockStream) (w : Window) (k : ErrorKind)
    (r' : MockStream) (hrd : r.read w.asRef.length = (.error k, r')) (hk : k ≠ .wouldBlock) :
    runReadExact (f + 1) r w = .errored (r', w.inner, k) := by
  simp only [runReadExact]
  split
  · next r'' heq => rw [hrd] at heq; simp at heq; exact absurd heq.1 hk
  · next k' r'' hnm heq => rw [hrd] at heq; simp at heq; rw [← heq.1, ← heq.2]
  · next bs r'' heq => rw [hrd] at heq; simp at heq

theorem runReadExact_step_eof (f : Nat) (r : MockStream) (w : Window) (r' : MockStream)
    (hrd : r.read w.asRef.length = (.ok [], r')) (hne : (w.fill []).asRef ≠ []) :
    runReadExact (f + 1) r w = .errored (r', (w.fill []).inner, .unexpectedEof) := by
  simp only [runReadExact]
  split
  · next r'' heq => rw [hrd] at heq; simp at heq
  · next k' r'' hnm heq => rw [hrd] at heq; simp at heq
  · next bs' r'' heq =>
      rw [hrd] at heq
      simp at heq
      obtain ⟨h1, h2⟩ := heq
      subst h1
      subst h2
      rw [if_pos ⟨rfl, hne⟩]

theorem runReadExact_step_ok (f : Nat) (r : MockStream) (w : Window) (bs : List Nat)
    (r' : MockStream) (hrd : r.read w.asRef.length = (.ok bs, r'))
    (hok : ¬(bs.length = 0 ∧ (w.fill bs).asRef ≠ [])) (w2 : Window)
    (hskip : (w.fill bs).skip bs.length = some w2) :
    runReadExact (f + 1) r w =
      (if w2.asRef = [] then .ready (r', w2.inner) else runReadExact f r' w2) := by
  simp only [runReadExact]
  split
  · next r'' heq => rw [hrd] at heq; simp at heq
  · next k' r'' hnm heq => rw [hrd] at heq; simp at heq
  · next bs' r'' heq =>
      rw [hrd] at heq
      simp at heq
      obtain ⟨h1, h2⟩ := heq
      subst h1
      subst h2
      rw [if_neg hok]
      split
      · next heq2 => rw [hskip] at heq2; cases heq2
      · next w2' heq2 =>
          rw [hskip] at heq2
          cases heq2
          rfl

theorem chunkStream_read_zero (cs : List (List Nat)) (hg : goodChunks cs) :
    (chunkStream cs).read 0 = (.ok [], chunkStream cs) := by
  cases cs with
  | nil => simp [chunkStream, MockStream.read]
  | cons c cs =>
      have hc : c ≠ [] := hg c (List.mem_cons_self c cs)
      have hclen : 0 < c.length := List.length_pos.mpr hc
      simp [chunkStream, MockStream.read, hclen.ne]

theorem runReadExact_empty (f : Nat) (r r' : MockStream) (w : Window)
    (hempty : w.asRef = []) (hrd : r.read w.asRef.length = (.ok [], r'))
    (hss : w.start ≤ w.stop) :
    runReadExact (f + 1) r w = .ready (r', w.inner) := by
  have hfill : w.fill [] = w := by
    simp [Window.fill, List.take_append_drop]
  have hok : ¬(([] : List Nat).length = 0 ∧ (w.fill []).asRef ≠ []) := by
    rw [hfill]
    intro h
    exact h.2 hempty
  have hskip : (w.fill []).skip ([] : List Nat).length = some w := by
    rw [hfill]
    simp [Window.skip, hss]
  rw [runReadExact_step_ok f r w [] r' hrd hok w hskip, if_pos hempty]

theorem runReadExact_chunks_success :
    ∀ (cs : List (List Nat)) (inner : List Nat) (start fuel : Nat),
      goodChunks cs →
      start ≤ inner.length →
      inner.length - start ≤ totalLen cs →
      inner.length - start + 1 ≤ fuel →
      runReadExact fuel (chunkStream cs) (Window.mk inner start inner.length) =
        .ready (chunkStream (dropBytesC cs (inner.length - start)),
          inner.take start ++ takeBytesC cs (inner.length - start)) := by
  intro cs
  induction cs with
  | nil =>
      intro inner start fuel hg hs htot hf
      have hrem : inner.length - start = 0 := by simpa [totalLen] using htot
      have hstart : start = inner.length := by omega
      obtain ⟨f, rfl⟩ : ∃ f, fuel = f + 1 := ⟨fuel - 1, by omega⟩
      have hempty : (Window.mk inner start inner.length).asRef = [] := by
        simp [Window.asRef, hrem]
      have hrd : (chunkStream []).read (Window.mk inner start inner.length).asRef.length =
          (.ok [], chunkStream []) := by
        rw [hempty]
        exact chunkStream_read_zero [] hg
      rw [runReadExact_empty f _ _ _ hempty hrd hs]
      rw [hrem, dropBytesC_zero, takeBytesC_zero, hstart]
      simp
  | cons c cs ih =>
      intro inner start fuel hg hs htot hf
      obtain ⟨f, rfl⟩ : ∃ f, fuel = f + 1 := ⟨fuel - 1, by omega⟩
      have hc : c ≠ [] := hg c (List.mem_cons_self c cs)
      have hclen : 0 < c.length := List.length_pos.mpr hc
      have hcs : goodChunks cs := fun d hd => hg d (List.mem_cons_of_mem c hd)
      rw [totalLen_cons] at htot
      by_cases hrem : inner.length - start = 0
      · have hstart : start = inner.length := by omega
        have hempty : (Window.mk inner start inner.length).asRef = [] := by
          simp [Window.asRef, hrem]
        have hrd : (chunkStream (c :: cs)).read
            (Window.mk inner start inner.length).asRef.length =
            (.ok [], chunkStream (c :: cs)) := by
          rw [hempty]
          exact chunkStream_read_zero (c :: cs) hg
        rw [runReadExact_empty f _ _ _ hempty hrd hs]
        rw [hrem, dropBytesC_zero, takeBytesC_zero, hstart]
        simp
      · have hcap := window_asRef_length inner start
        by_cases hcl : c.length ≤ inner.length - start
        · -- the head chunk is consumed whole
          have hle : start + c.length ≤ inner.length := by omega
          have hrd : (chunkStream (c :: cs)).read
              (Window.mk inner start inner.length).asRef.length =
              (.ok c, chunkStream cs) := by
            rw [hcap]
            simp [chunkStream, MockStream.read, min_eq_right hcl]
          have hok : ¬(c.length = 0 ∧
              ((Window.mk inner start inner.length).fill c).asRef ≠ []) :=
            fun h => hclen.ne' h.1
          have hskip : ((Window.mk inner start inner.length).fill c).skip c.length =
              some (Window.mk (inner.take start ++ c ++ inner.drop (start + c.length))
                (start + c.length) inner.length) := by
            simp [Window.fill, Window.skip, hle]
          rw [runReadExact_step_ok f _ _ c _ hrd hok _ hskip]
          have hlen1 : (inner.take start ++ c ++ inner.drop (start + c.length)).length =
              inner.length := by
            simp
            omega
          have hdrop : dropBytesC (c :: cs) (inner.length - start) =
              dropBytesC cs (inner.length - start - c.length) := by
            simp [dropBytesC, hrem, hcl]
          have htakeC : takeBytesC (c :: cs) (inner.length - start) =
              c ++ takeBytesC cs (inner.length - start - c.length) := by
            simp [takeBytesC, hrem, hcl]
          by_cases hfull : inner.length - start = c.length
          · have hstop : start + c.length = inner.length := by omega
            have hemp : (Window.mk (inner.take start ++ c ++ inner.drop (start + c.length))
                (start + c.length) inner.length).asRef = [] := by
              simp [Window.asRef, hstop]
            rw [if_pos hemp]
            rw [hdrop, htakeC]
            have hz : inner.length - start - c.length = 0 := by omega
            rw [hz, dropBytesC_zero, takeBytesC_zero, hstop]
            simp [List.drop_length]
          · have hne2 : (Window.mk (inner.take start ++ c ++ inner.drop (start + c.length))
                (start + c.length) inner.length).asRef ≠ [] := by
              have hl : (Window.mk (inner.take start ++ c ++ inner.drop (start + c.length))
                  (start + c.length) inner.length).asRef.length =
                  inner.length - (start + c.length) := by
                simp [Window.asRef, hlen1]
                omega
              intro he
              rw [he] at hl
              simp at hl
              omega
            rw [if_neg hne2]
            have hih := ih (inner.take start ++ c ++ inner.drop (start + c.length))
              (start + c.length) f hcs (by rw [hlen1]; omega)
              (by rw [hlen1]; omega) (by rw [hlen1]; omega)
            rw [show (Window.mk (inner.take start ++ c ++ inner.drop (start + c.length))
                (start + c.length)
                (inner.take start ++ c ++ inner.drop (start + c.length)).length) =
                (Window.mk (inner.take start ++ c ++ inner.drop (start + c.length))
                  (start + c.length) inner.length) by rw [hlen1]] at hih
            rw [hih]
            have harith : (inner.take start ++ c ++ inner.drop (start + c.length)).length -
                (start + c.length) = inner.length - start - c.length := by
              rw [hlen1]
              omega
            rw [harith]
            have htake1 : (inner.take start ++ c ++ inner.drop (start + c.length)).take
                (start + c.length) = inner.take start ++ c :=
              List.take_left' (by simp; omega)
            rw [htake1, hdrop, htakeC, List.append_assoc]
        · -- only part of the head chunk fits
          have hlt : inner.length - start < c.length := not_le.mp hcl
          have hbslen : (c.take (inner.length - start)).length = inner.length - start := by
            simp
            omega
          have hsr : start + (inner.length - start) = inner.length := by omega
          have hrd : (chunkStream (c :: cs)).read
              (Window.mk inner start inner.length).asRef.length =
              (.ok (c.take (inner.length - start)), chunkStream (c.drop (inner.length - start) :: cs)) := by
            rw [hcap]
            simp [chunkStream, MockStream.read, min_eq_left (le_of_lt hlt), ne_of_lt hlt]
          have hok : ¬((c.take (inner.length - start)).length = 0 ∧
              ((Window.mk inner start inner.length).fill (c.take (inner.length - start))).asRef ≠ []) := by
            rw [hbslen]
            intro h
            exact hrem h.1
          have hskip : ((Window.mk inner start inner.length).fill
                (c.take (inner.length - start))).skip (c.take (inner.length - start)).length =
              some (Window.mk (inner.take start ++ c.take (inner.length - start) ++
                  inner.drop (start + (inner.length - start)))
                (start + (inner.length - start)) inner.length) := by
            simp [Window.fill, Window.skip, hbslen, hsr]
          rw [runReadExact_step_ok f _ _ (c.take (inner.length - start)) _ hrd hok _ hskip]
          have hemp : (Window.mk (inner.take start ++ c.take (inner.length - start) ++
              inner.drop (start + (inner.length - start)))
              (start + (inner.length - start)) inner.length).asRef = [] := by
            simp [Window.asRef, hsr]
          rw [if_pos hemp]
          have hdrop : dropBytesC (c :: cs) (inner.length - start) =
              c.drop (inner.length - start) :: cs := by
            simp [dropBytesC, hrem, hcl]
          have htakeC : takeBytesC (c :: cs) (inner.length - start) =
              c.take (inner.length - start) := by
            simp [takeBytesC, hrem, hcl]
          rw [hdrop, htakeC, hsr]
          simp [List.drop_length]

theorem window_fill_nil (w : Window) : w.fill [] = w := by
  simp [Window.fill, List.take_append_drop]

theorem runReadExact_chunks_eof :
    ∀ (cs : List (List Nat)) (inner : List Nat) (start fuel : Nat),
      goodChunks cs →
      start ≤ inner.length →
      totalLen cs < inner.length - start →
      cs.length + 2 ≤ fuel →
      runReadExact fuel (chunkStream cs) (Window.mk inner start inner.length) =
        .errored (chunkStream [],
          inner.take start ++ cs.flatten ++ inner.drop (start + totalLen cs),
          .unexpectedEof) := by
  intro cs
  induction cs with
  | nil =>
      intro inner start fuel hg hs htot hf
      obtain ⟨f, rfl⟩ : ∃ f, fuel = f + 1 := ⟨fuel - 1, by omega⟩
      rw [totalLen] at htot
      simp at htot
      have hcap := window_asRef_length inner start
      have hrd : (chunkStream []).read (Window.mk inner start inner.length).asRef.length =
          (.ok [], chunkStream []) := by
        simp [chunkStream, MockStream.read]
      have hne : ((Window.mk inner start inner.length).fill []).asRef ≠ [] := by
        rw [window_fill_nil]
        intro he
        have := congrArg List.length he
        rw [hcap] at this
        simp at this
        omega
      rw [runReadExact_step_eof f _ _ _ hrd hne, window_fill_nil]
      simp [totalLen, List.take_append_drop, chunkStream]
  | cons c cs ih =>
      intro inner start fuel hg hs htot hf
      obtain ⟨f, rfl⟩ : ∃ f, fuel = f + 1 := ⟨fuel - 1, by omega⟩
      have hc : c ≠ [] := hg c (List.mem_cons_self c cs)
      have hclen : 0 < c.length := List.length_pos.mpr hc
      have hcs : goodChunks cs := fun d hd => hg d (List.mem_cons_of_mem c hd)
      rw [totalLen_cons] at htot
      have hcl : c.length ≤ inner.length - start := by omega
      have hrem : ¬(inner.length - start = 0) := by omega
      have hle : start + c.length ≤ inner.length := by omega
      have hcap := window_asRef_length inner start
      have hrd : (chunkStream (c :: cs)).read
          (Window.mk inner start inner.length).asRef.length =
          (.ok c, chunkStream cs) := by
        rw [hcap]
        simp [chunkStream, MockStream.read, min_eq_right hcl]
      have hok : ¬(c.length = 0 ∧
          ((Window.mk inner start inner.length).fill c).asRef ≠ []) :=
        fun h => hclen.ne' h.1
      have hskip : ((Window.mk inner start inner.length).fill c).skip c.length =
          some (Window.mk (inner.take start ++ c ++ inner.drop (start + c.length))
            (start + c.length) inner.length) := by
        simp [Window.fill, Window.skip, hle]
      rw [runReadExact_step_ok f _ _ c _ hrd hok _ hskip]
      have hlen1 : (inner.take start ++ c ++ inner.drop (start + c.length)).length =
          inner.length := by
        simp
        omega
      have hne2 : (Window.mk (inner.take start ++ c ++ inner.drop (start + c.length))
          (start + c.length) inner.length).asRef ≠ [] := by
        have hl : (Window.mk (inner.take start ++ c ++ inner.drop (start + c.length))
            (start + c.length) inner.length).asRef.length =
            inner.length - (start + c.length) := by
          simp [Window.asRef, hlen1]
          omega
        intro he
        rw [he] at hl
        simp at hl
        omega
      rw [if_neg hne2]
      have hih := ih (inner.take start ++ c ++ inner.drop (start + c.length))
        (start + c.length) f hcs (by rw [hlen1]; omega) (by rw [hlen1]; omega)
        (by simp at hf ⊢; omega)
      rw [show (Window.mk (inner.take start ++ c ++ inner.drop (start + c.length))
          (start + c.length)
          (inner.take start ++ c ++ inner.drop (start + c.length)).length) =
          (Window.mk (inner.take start ++ c ++ inner.drop (start + c.length))
            (start + c.length) inner.length) by rw [hlen1]] at hih
      rw [hih]
      have htake1 : (inner.take start ++ c ++ inner.drop (start + c.length)).take
          (start + c.length) = inner.take start ++ c :=
        List.take_left' (by simp; omega)
      have hdrop1 : (inner.take start ++ c ++ inner.drop (start + c.length)).drop
          (start + c.length + totalLen cs) = inner.drop (start + (c.length + totalLen cs)) := by
        have hpre : (inner.take start ++ c).length = start + c.length := by
          simp
          omega
        rw [show start + c.length + totalLen cs =
          (inner.take start ++ c).length + totalLen cs by rw [hpre]]
        rw [show inner.take start ++ c ++ inner.drop (start + c.length) =
          (inner.take start ++ c) ++ inner.drop (start + c.length) from rfl]
        rw [List.drop_append, List.drop_drop, Nat.add_assoc]
      rw [htake1, hdrop1, totalLen_cons]
      simp [List.append_assoc]

theorem runWriteAll_step_block (f : Nat) (s : MockSink) (b : Window) (s' : MockSink)
    (hwr : s.write b.asRef = (.error .wouldBlock, s')) :
    runWriteAll (f + 1) s b = runWriteAll f s' b := by
  simp only [runWriteAll]
  split
  · next s'' heq => rw [hwr] at heq; simp at heq; rw [heq]
  · next k s'' hnm heq => rw [hwr] at heq; simp at heq; exact absurd heq.1.symm hnm
  · next n s'' heq => rw [hwr] at heq; simp at heq

theorem runWriteAll_step_err (f : Nat) (s : MockSink) (b : Window) (k : ErrorKind)
    (s' : MockSink) (hwr : s.write b.asRef = (.error k, s')) (hk : k ≠ .wouldBlock) :
    runWriteAll (f + 1) s b = .errored (s', b.inner, k) := by
  simp only [runWriteAll]
  split
  · next s'' heq => rw [hwr] at heq; simp at heq; exact absurd heq.1 hk
  · next k' s'' hnm heq => rw [hwr] at heq; simp at heq; rw [← heq.1, ← heq.2]
  · next n s'' heq => rw [hwr] at heq; simp at heq

theorem runWriteAll_step_ok (f : Nat) (s : MockSink) (b : Window) (n : Nat)
    (s' : MockSink) (hwr : s.write b.asRef = (.ok n, s')) (b2 : Window)
    (hskip : b.skip n = some b2) :
    runWriteAll (f + 1) s b =
      (if b2.asRef = [] then .ready (s', b2.inner)
       else if n = 0 then .errored (s', b2.inner, .unexpectedEof)
       else runWriteAll f s' b2) := by
  simp only [runWriteAll]
  split
  · next s'' heq => rw [hwr] at heq; simp at heq
  · next k' s'' hnm heq => rw [hwr] at heq; simp at heq
  · next n' s'' heq =>
      rw [hwr] at heq
      simp at heq
      obtain ⟨h1, h2⟩ := heq
      subst h1
      subst h2
      split
      · next heq2 => rw [hskip] at heq2; cases heq2
      · next b2' heq2 =>
          rw [hskip] at heq2
          cases heq2
          rfl

theorem window_new_asRef (bs : List Nat) : (Window.new bs).asRef = bs := by
  simp [Window.new, Window.asRef]

theorem runWriteAll_accept_all (f : Nat) (written bs : List Nat) :
    runWriteAll (f + 1) ⟨[], written⟩ (Window.new bs) =
      .ready (⟨[], written ++ bs⟩, bs) := by
  have hwr : (⟨[], written⟩ : MockSink).write (Window.new bs).asRef =
      (.ok bs.length, ⟨[], written ++ bs⟩) := by
    rw [window_new_asRef]
    simp [MockSink.write]
  have hskip : (Window.new bs).skip bs.length =
      some (Window.mk bs bs.length bs.length) := by
    simp [Window.new, Window.skip]
  rw [runWriteAll_step_ok f _ _ bs.length _ hwr _ hskip]
  have hemp : (Window.mk bs bs.length bs.length).asRef = [] := by
    simp [Window.asRef]
  rw [if_pos hemp]

theorem window_asRef_len (w : Window) (h : w.stop ≤ w.inner.length) :
    w.asRef.length = w.stop - w.start := by
  simp [Window.asRef]
  omega

theorem window_asRef_nil (w : Window) (h : w.stop - w.start = 0) : w.asRef = [] := by
  simp [Window.asRef, h]

theorem window_asRef_ne_nil (w : Window) (h : w.stop ≤ w.inner.length)
    (hp : 0 < w.stop - w.start) : w.asRef ≠ [] := by
  intro he
  have := congrArg List.length he
  rw [window_asRef_len w h] at this
  simp at this
  omega

theorem runWriteAll_accepts_eof :
    ∀ (as : List Nat) (w0 : List Nat) (b : Window) (fuel : Nat),
      b.start ≤ b.stop → b.stop ≤ b.inner.length →
      (∃ j, j < as.length ∧ as.getD j 0 = 0 ∧ (as.take j).sum < b.stop - b.start) →
      as.length + 2 ≤ fuel →
      ∃ s', runWriteAll fuel (⟨as.map .accept, w0⟩ : MockSink) b =
        .errored (s', b.inner, .unexpectedEof) := by
  intro as
  induction as with
  | nil =>
      intro w0 b fuel hss hsl hex hf
      obtain ⟨j, hj, _⟩ := hex
      simp at hj
  | cons a as ih =>
      intro w0 b fuel hss hsl hex hf
      obtain ⟨f, rfl⟩ : ∃ f, fuel = f + 1 := ⟨fuel - 1, by omega⟩
      have hlen := window_asRef_len b hsl
      have hp : 0 < b.stop - b.start := by
        obtain ⟨j, hj, hz, hsum⟩ := hex
        omega
      have hne := window_asRef_ne_nil b hsl hp
      by_cases ha : a = 0
      · subst ha
        have hwr : (⟨(0 :: as).map .accept, w0⟩ : MockSink).write b.asRef =
            (.ok 0, ⟨as.map .accept, w0⟩) := by
          simp [MockSink.write]
        have hskip : b.skip 0 = some b := by
          simp [Window.skip, hss]
        rw [runWriteAll_step_ok f _ _ 0 _ hwr _ hskip, if_neg hne, if_pos rfl]
        exact ⟨⟨as.map .accept, w0⟩, rfl⟩
      · obtain ⟨j, hj, hz, hsum⟩ := hex
        obtain ⟨j', rfl⟩ : ∃ j', j = j' + 1 := by
          cases j with
          | zero => simp at hz; exact absurd hz ha
          | succ j' => exact ⟨j', rfl⟩
        have hsum' : a + (as.take j').sum < b.stop - b.start := by
          simpa [List.sum_cons] using hsum
        have halt : a < b.stop - b.start := by
          omega
        have hwr : (⟨(a :: as).map .accept, w0⟩ : MockSink).write b.asRef =
            (.ok a, ⟨as.map .accept, w0 ++ b.asRef.take a⟩) := by
          simp [MockSink.write, hlen]
          omega
        have hskip : b.skip a = some (Window.mk b.inner (b.start + a) b.stop) := by
          simp [Window.skip]
          omega
        rw [runWriteAll_step_ok f _ _ a _ hwr _ hskip]
        have hne2 : (Window.mk b.inner (b.start + a) b.stop).asRef ≠ [] := by
          apply window_asRef_ne_nil <;> simp <;> omega
        rw [if_neg hne2, if_neg ha]
        have := ih (w0 ++ b.asRef.take a) (Window.mk b.inner (b.start + a) b.stop) f
          (by simp; omega) (by simpa using hsl)
          ⟨j', by simpa using hj, hz, by simp; omega⟩ (by simp at hf ⊢; omega)
        simpa using this

theorem runWriteAll_accepts_ok :
    ∀ (as : List Nat) (w0 : List Nat) (b : Window) (fuel : Nat),
      b.start ≤ b.stop → b.stop ≤ b.inner.length →
      (¬∃ j, j < as.length ∧ as.getD j 0 = 0 ∧ (as.take j).sum < b.stop - b.start) →
      as.length + 2 ≤ fuel →
      ∃ s', runWriteAll fuel (⟨as.map .accept, w0⟩ : MockSink) b =
        .ready (s', b.inner) := by
  intro as
  induction as with
  | nil =>
      intro w0 b fuel hss hsl hnex hf
      obtain ⟨f, rfl⟩ : ∃ f, fuel = f + 1 := ⟨fuel - 1, by omega⟩
      simp only [List.map_nil]
      have hlen := window_asRef_len b hsl
      have hwr : (⟨[], w0⟩ : MockSink).write b.asRef =
          (.ok b.asRef.length, ⟨[], w0 ++ b.asRef⟩) := by
        simp [MockSink.write]
      have hskip : b.skip b.asRef.length =
          some (Window.mk b.inner (b.start + b.asRef.length) b.stop) := by
        simp [Window.skip, hlen]
        omega
      rw [runWriteAll_step_ok f _ _ _ _ hwr _ hskip]
      have hemp : (Window.mk b.inner (b.start + b.asRef.length) b.stop).asRef = [] := by
        apply window_asRef_nil
        simp [hlen]
        omega
      rw [if_pos hemp]
      exact ⟨⟨[], w0 ++ b.asRef⟩, rfl⟩
  | cons a as ih =>
      intro w0 b fuel hss hsl hnex hf
      obtain ⟨f, rfl⟩ : ∃ f, fuel = f + 1 := ⟨fuel - 1, by omega⟩
      have hlen := window_asRef_len b hsl
      by_cases hp : b.stop - b.start = 0
      · have hemp0 : b.asRef = [] := window_asRef_nil b hp
        have hwr : (⟨(a :: as).map .accept, w0⟩ : MockSink).write b.asRef =
            (.ok 0, ⟨as.map .accept, w0 ++ b.asRef.take (min a b.asRef.length)⟩) := by
          simp [MockSink.write, hemp0]
        have hskip : b.skip 0 = some b := by
          simp [Window.skip, hss]
        rw [runWriteAll_step_ok f _ _ 0 _ hwr _ hskip, if_pos hemp0]
        exact ⟨_, rfl⟩
      · have ha : a ≠ 0 := by
          intro ha0
          exact hnex ⟨0, by simp, by simp [ha0], by simp; omega⟩
        by_cases halt : b.stop - b.start ≤ a
        · -- this acceptance drains the window
          have hwr : (⟨(a :: as).map .accept, w0⟩ : MockSink).write b.asRef =
              (.ok (b.stop - b.start),
                ⟨as.map .accept, w0 ++ b.asRef.take (b.stop - b.start)⟩) := by
            simp [MockSink.write, hlen]
            omega
          have hskip : b.skip (b.stop - b.start) =
              some (Window.mk b.inner (b.start + (b.stop - b.start)) b.stop) := by
            simp [Window.skip]
            omega
          rw [runWriteAll_step_ok f _ _ _ _ hwr _ hskip]
          have hemp : (Window.mk b.inner (b.start + (b.stop - b.start)) b.stop).asRef = [] := by
            apply window_asRef_nil
            simp
            omega
          rw [if_pos hemp]
          exact ⟨_, rfl⟩
        · have hwr : (⟨(a :: as).map .accept, w0⟩ : MockSink).write b.asRef =
              (.ok a, ⟨as.map .accept, w0 ++ b.asRef.take a⟩) := by
            simp [MockSink.write, hlen]
            omega
          have hskip : b.skip a = some (Window.mk b.inner (b.start + a) b.stop) := by
            simp [Window.skip]
            omega
          rw [runWriteAll_step_ok f _ _ a _ hwr _ hskip]
          have hne2 : (Window.mk b.inner (b.start + a) b.stop).asRef ≠ [] := by
            apply window_asRef_ne_nil <;> simp <;> omega
          rw [if_neg hne2, if_neg ha]
          have hnex' : ¬∃ j, j < as.length ∧ as.getD j 0 = 0 ∧
              (as.take j).sum < (Window.mk b.inner (b.start + a) b.stop).stop -
                (Window.mk b.inner (b.start + a) b.stop).start := by
            intro ⟨j', hj', hz', hsum'⟩
            apply hnex
            refine ⟨j' + 1, by simpa using hj', by simpa using hz', ?_⟩
            simp at hsum' ⊢
            omega
          have := ih (w0 ++ b.asRef.take a) (Window.mk b.inner (b.start + a) b.stop) f
            (by simp; omega) (by simpa using hsl) hnex' (by simp at hf ⊢; omega)
          simpa using this

theorem beVal_concat (ys : List Nat) (y : Nat) :
    beVal (ys ++ [y]) = beVal ys * 256 + y := by
  simp [beVal, List.foldl_append]

theorem beVal_lt (bs : List Nat) (h : ∀ b ∈ bs, b < 256) :
    beVal bs < 256 ^ bs.length := by
  induction bs using List.reverseRecOn with
  | nil => simp [beVal]
  | append_singleton l a ih =>
      rw [beVal_concat]
      have ha : a < 256 := h a (by simp)
      have hl : beVal l < 256 ^ l.length := ih (fun b hb => h b (by simp [hb]))
      simp [pow_succ]
      calc beVal l * 256 + a < (beVal l + 1) * 256 := by omega
        _ ≤ 256 ^ l.length * 256 := by
            have : beVal l + 1 ≤ 256 ^ l.length := hl
            exact Nat.mul_le_mul_right 256 this
  
theorem natToBe_beVal (bs : List Nat) (h : ∀ b ∈ bs, b < 256) :
    natToBe bs.length (beVal bs) = bs := by
  induction bs using List.reverseRecOn with
  | nil => simp [natToBe, beVal]
  | append_singleton l a ih =>
      have ha : a < 256 := h a (by simp)
      rw [beVal_concat]
      have hlen : (l ++ [a]).length = l.length + 1 := by simp
      rw [hlen]
      show natToBe l.length ((beVal l * 256 + a) / 256) ++ [(beVal l * 256 + a) % 256] = l ++ [a]
      have hdiv : (beVal l * 256 + a) / 256 = beVal l := by
        omega
      have hmod : (beVal l * 256 + a) % 256 = a := by
        omega
      rw [hdiv, hmod, ih (fun b hb => h b (by simp [hb]))]

theorem toUnsigned_toSigned (w n : Nat) (h : n < 2 ^ w) :
    toUnsigned w (toSigned w n) = n := by
  unfold toSigned toUnsigned
  by_cases hlt : n < 2 ^ (w - 1)
  · rw [if_pos hlt]
    rw [Int.emod_eq_of_lt (by positivity) (by exact_mod_cast h)]
    simp
  · rw [if_neg hlt]
    have h1 : ((n : Int) - 2 ^ w) % 2 ^ w = (n : Int) % 2 ^ w := by
      have := Int.add_mul_emod_self_left (a := (n : Int)) (b := 2 ^ w) (c := -1)
      simpa using this
    rw [h1, Int.emod_eq_of_lt (by positivity) (by exact_mod_cast h)]
    simp

theorem pow256_eq (k : Nat) : 256 ^ k = 2 ^ (8 * k) := by
  rw [pow_mul]
  norm_num

theorem encodeFix_decodeFix (s : FixnumSpec) (bs : List Nat)
    (hlen : bs.length = s.nbytes) (hb : ∀ b ∈ bs, b < 256) :
    encodeFix s (decodeFix s bs) = bs := by
  unfold encodeFix decodeFix
  cases s with
  | mk nbytes signed endian =>
      simp only at hlen ⊢
      cases endian with
      | be =>
          simp only
          cases signed with
          | false =>
              simp only [if_false, Bool.false_eq_true]
              rw [Int.toNat_natCast, ← hlen, natToBe_beVal bs hb]
          | true =>
              simp only [if_true]
              have hlt : beVal bs < 2 ^ (8 * nbytes) := by
                rw [← pow256_eq, ← hlen]
                exact beVal_lt bs hb
              rw [toUnsigned_toSigned _ _ hlt, ← hlen, natToBe_beVal bs hb]
      | le =>
          simp only
          have hbr : ∀ b ∈ bs.reverse, b < 256 := fun b hb2 => hb b (List.mem_reverse.mp hb2)
          cases signed with
          | false =>
              simp only [if_false, Bool.false_eq_true]
              rw [Int.toNat_natCast, ← hlen, ← List.length_reverse,
                natToBe_beVal bs.reverse hbr, List.reverse_reverse]
          | true =>
              simp only [if_true]
              have hlt : beVal bs.reverse < 2 ^ (8 * nbytes) := by
                rw [← pow256_eq, ← hlen, ← List.length_reverse]
                exact beVal_lt bs.reverse hbr
              rw [toUnsigned_toSigned _ _ hlt, ← hlen, ← List.length_reverse,
                natToBe_beVal bs.reverse hbr, List.reverse_reverse]

theorem takeBytesC_length :
    ∀ (cs : List (List Nat)) (rem : Nat), rem ≤ totalLen cs →
      (takeBytesC cs rem).length = rem := by
  intro cs
  induction cs with
  | nil =>
      intro rem h
      simp [totalLen] at h
      simp [takeBytesC, h]
  | cons c cs ih =>
      intro rem h
      rw [totalLen_cons] at h
      by_cases h0 : rem = 0
      · simp [takeBytesC, h0]
      · by_cases hcl : c.length ≤ rem
        · simp [takeBytesC, h0, hcl]
          rw [ih (rem - c.length) (by omega)]
          omega
        · simp [takeBytesC, h0, hcl]
          omega

theorem takeBytesC_lt :
    ∀ (cs : List (List Nat)) (rem : Nat), (∀ c ∈ cs, ∀ b ∈ c, b < 256) →
      ∀ b ∈ takeBytesC cs rem, b < 256 := by
  intro cs
  induction cs with
  | nil =>
      intro rem _ b hb
      simp [takeBytesC] at hb
  | cons c cs ih =>
      intro rem hlt b hb
      by_cases h0 : rem = 0
      · simp [takeBytesC, h0] at hb
      · by_cases hcl : c.length ≤ rem
        · simp [takeBytesC, h0, hcl] at hb
          rcases hb with hb | hb
          · exact hlt c (by simp) b hb
          · exact ih (rem - c.length) (fun d hd => hlt d (by simp [hd])) b hb
        · simp [takeBytesC, h0, hcl] at hb
          exact hlt c (by simp) b (List.mem_of_mem_take hb)

/-- Parametric round trip for any integer descriptor (any byte width,
signedness and byte order): on a stream of nonempty data chunks with enough
bytes available, reading consumes exactly the first `nbytes` bytes and writing
the value back into a fresh empty sink reproduces them. -/
theorem fixnum_roundtrip (s : FixnumSpec) (cs : List (List Nat)) (fuel fuel2 : Nat)
    (hw1 : 1 ≤ s.nbytes) (hw8 : s.nbytes ≤ 8)
    (hg : goodChunks cs) (hb : ∀ c ∈ cs, ∀ b ∈ c, b < 256)
    (havail : s.nbytes ≤ totalLen cs)
    (hf : s.nbytes + 1 ≤ fuel) (hf2 : 1 ≤ fuel2) :
    readFixnum s fuel (chunkStream cs) =
      .ready (chunkStream (dropBytesC cs s.nbytes),
        decodeFix s (takeBytesC cs s.nbytes)) ∧
    writeFixnum s (decodeFix s (takeBytesC cs s.nbytes)) fuel2 ⟨[], []⟩ =
      .ready (⟨[], takeBytesC cs s.nbytes⟩, takeBytesC cs s.nbytes) := by
  constructor
  · have hsucc := runReadExact_chunks_success cs (List.replicate s.nbytes 0) 0 fuel hg
      (by simp) (by simp; omega) (by simp; omega)
    simp only [readFixnum, Window.new]
    rw [hsucc]
    simp
  · have hTlen : (takeBytesC cs s.nbytes).length = s.nbytes :=
      takeBytesC_length cs s.nbytes havail
    have hTb : ∀ b ∈ takeBytesC cs s.nbytes, b < 256 := takeBytesC_lt cs s.nbytes hb
    have henc : encodeFix s (decodeFix s (takeBytesC cs s.nbytes)) = takeBytesC cs s.nbytes :=
      encodeFix_decodeFix s _ hTlen hTb
    obtain ⟨f2, rfl⟩ : ∃ f2, fuel2 = f2 + 1 := ⟨fuel2 - 1, by omega⟩
    unfold writeFixnum
    rw [henc]
    have := runWriteAll_accept_all f2 [] (takeBytesC cs s.nbytes)
    simpa using this

/-- C2 (amended): for every fixed-width numeric pattern that the write side
implements — the members of `writeFixnumPatterns`, i.e. the integer family
`U8`..`I64`, which excludes the read-only float patterns `F32`/`F64` — in both
byte orders, and for every stream of nonempty data chunks with at least the
pattern's width in bytes available and never reporting would-block: reading a
value with `read_from` consumes exactly the first `width` bytes, and writing
that value with `write_into` into a fresh empty sink reproduces exactly the
bytes that were consumed. -/
theorem c2_fixnum_roundtrip (p : NumPat) (e : ByteOrder) (cs : List (List Nat))
    (fuel fuel2 : Nat) (hp : p ∈ writeFixnumPatterns)
    (hg : goodChunks cs) (hb : ∀ c ∈ cs, ∀ b ∈ c, b < 256)
    (havail : p.width ≤ totalLen cs)
    (hf : p.width + 1 ≤ fuel) (hf2 : 1 ≤ fuel2) :
    readFixnum (p.spec e) fuel (chunkStream cs) =
      .ready (chunkStream (dropBytesC cs p.width),
        decodeFix (p.spec e) (takeBytesC cs p.width)) ∧
    writeFixnum (p.spec e) (decodeFix (p.spec e) (takeBytesC cs p.width)) fuel2 ⟨[], []⟩ =
      .ready (⟨[], takeBytesC cs p.width⟩, takeBytesC cs p.width) := by
  have hw1 : 1 ≤ p.width := by cases p <;> decide
  have hw8 : p.width ≤ 8 := by cases p <;> decide
  exact fixnum_roundtrip (p.spec e) cs fuel fuel2 hw1 hw8 hg hb havail hf hf2

/-- C2 counterexample: the claimed family includes the 32/64-bit float patterns,
and the read side does implement them (`impl_read_fixnum_pattern` at
io/read_pattern.rs lines 351-356), but `impl_write_fixnum_pattern`
(io/write_pattern.rs lines 263-337) — the claim's own cited write-side source —
instantiates only the integer types, and no float write impl exists anywhere in
the repository: `write_into` is undefined for `F32`/`F64`, so the
read-then-write sequence the claim states does not exist for the float part of
the family. -/
theorem c2_fixnum_roundtrip_counterexample :
    NumPat.f32 ∈ readFixnumPatterns ∧ NumPat.f64 ∈ readFixnumPatterns ∧
    NumPat.f32 ∉ writeFixnumPatterns ∧ NumPat.f64 ∉ writeFixnumPatterns := by
  decide

/-- C2 witness: the round trip for the signed 3-byte little-endian pattern
`LE<I24>` on a concrete chunked stream. -/
theorem c2_fixnum_roundtrip_witness :
    readFixnum (NumPat.i24.spec .le) 4 (chunkStream [[200], [201, 202, 7]]) =
      .ready (chunkStream (dropBytesC [[200], [201, 202, 7]] 3),
        decodeFix (NumPat.i24.spec .le) (takeBytesC [[200], [201, 202, 7]] 3)) ∧
    writeFixnum (NumPat.i24.spec .le)
        (decodeFix (NumPat.i24.spec .le) (takeBytesC [[200], [201, 202, 7]] 3)) 1 ⟨[], []⟩ =
      .ready (⟨[], takeBytesC [[200], [201, 202, 7]] 3⟩,
        takeBytesC [[200], [201, 202, 7]] 3) :=
  c2_fixnum_roundtrip .i24 .le [[200], [201, 202, 7]] 4 1
    (by decide) (by unfold goodChunks; decide) (by decide)
    (by unfold totalLen; decide) (by decide) (by decide)

/-- C3: the exact-transfer operations fail with an unexpected-end-of-stream error
exactly when a zero-byte transfer occurs while the window still has unconsumed
bytes, and that error carries the partially filled buffer and the stream.  On a
stream of nonempty data chunks, `ReadExact` raises `UnexpectedEof` precisely
when the stream exhausts before the window fills (carrying the stream and the
partially filled inner buffer) and succeeds otherwise; an exact read with an
already-empty window succeeds even on an exhausted stream; and on a sink that
accepts `as.map accept`, `WriteAll` raises `UnexpectedEof` (carrying the sink
and the inner buffer) exactly when some acceptance is for zero bytes while
bytes are still pending. -/
theorem c3_exact_transfer_eof (cs : List (List Nat)) (inner : List Nat) (start fuel : Nat)
    (as w0 : List Nat) (b : Window) (wfuel : Nat)
    (hg : goodChunks cs) (hs : start ≤ inner.length)
    (hrf : cs.length + inner.length + 2 ≤ fuel)
    (hbs : b.start ≤ b.stop) (hbl : b.stop ≤ b.inner.length)
    (hwf : as.length + 2 ≤ wfuel) :
    ((totalLen cs < inner.length - start →
      runReadExact fuel (chunkStream cs) (Window.mk inner start inner.length) =
        .errored (chunkStream [],
          inner.take start ++ cs.flatten ++ inner.drop (start + totalLen cs),
          .unexpectedEof)) ∧
     (inner.length - start ≤ totalLen cs →
      runReadExact fuel (chunkStream cs) (Window.mk inner start inner.length) =
        .ready (chunkStream (dropBytesC cs (inner.length - start)),
          inner.take start ++ takeBytesC cs (inner.length - start)))) ∧
    (∀ (w : Window) (f : Nat), w.asRef = [] → w.start ≤ w.stop →
      runReadExact (f + 1) (⟨[]⟩ : MockStream) w = .ready (⟨[]⟩, w.inner)) ∧
    ((∃ s', runWriteAll wfuel (⟨as.map .accept, w0⟩ : MockSink) b =
        .errored (s', b.inner, .unexpectedEof)) ↔
      ∃ j, j < as.length ∧ as.getD j 0 = 0 ∧ (as.take j).sum < b.stop - b.start) := by
  refine ⟨⟨?_, ?_⟩, ?_, ?_⟩
  · intro hlt
    exact runReadExact_chunks_eof cs inner start fuel hg hs hlt (by omega)
  · intro hge
    exact runReadExact_chunks_success cs inner start fuel hg hs hge (by omega)
  · intro w f hempty hss
    have hrd : (⟨[]⟩ : MockStream).read w.asRef.length = (.ok [], ⟨[]⟩) := by
      simp [MockStream.read]
    exact runReadExact_empty f _ _ w hempty hrd hss
  · constructor
    · intro hex
      by_contra hnex
      obtain ⟨s', hready⟩ := runWriteAll_accepts_ok as w0 b wfuel hbs hbl hnex hwf
      obtain ⟨s'', herr⟩ := hex
      rw [hready] at herr
      cases herr
    · intro hj
      exact runWriteAll_accepts_eof as w0 b wfuel hbs hbl hj hwf

/-- C3 witness: a one-chunk stream that is one byte short raises the EOF error
with the partially filled buffer, and a sink whose first acceptance is zero
bytes makes `WriteAll` raise the same error. -/
theorem c3_exact_transfer_eof_witness :
    goodChunks [[1]] ∧
    (((totalLen [[1]] < ([0, 0] : List Nat).length - 0 →
      runReadExact 5 (chunkStream [[1]]) (Window.mk [0, 0] 0 ([0, 0] : List Nat).length) =
        .errored (chunkStream [],
          ([0, 0] : List Nat).take 0 ++ ([[1]] : List (List Nat)).flatten ++
            ([0, 0] : List Nat).drop (0 + totalLen [[1]]),
          .unexpectedEof)) ∧
     (([0, 0] : List Nat).length - 0 ≤ totalLen [[1]] →
      runReadExact 5 (chunkStream [[1]]) (Window.mk [0, 0] 0 ([0, 0] : List Nat).length) =
        .ready (chunkStream (dropBytesC [[1]] (([0, 0] : List Nat).length - 0)),
          ([0, 0] : List Nat).take 0 ++ takeBytesC [[1]] (([0, 0] : List Nat).length - 0)))) ∧
    (∀ (w : Window) (f : Nat), w.asRef = [] → w.start ≤ w.stop →
      runReadExact (f + 1) (⟨[]⟩ : MockStream) w = .ready (⟨[]⟩, w.inner)) ∧
    ((∃ s', runWriteAll 3 (⟨([0] : List Nat).map .accept, []⟩ : MockSink) (Window.new [5]) =
        .errored (s', (Window.new [5]).inner, .unexpectedEof)) ↔
      ∃ j, j < ([0] : List Nat).length ∧ ([0] : List Nat).getD j 0 = 0 ∧
        (([0] : List Nat).take j).sum < (Window.new [5]).stop - (Window.new [5]).start)) :=
  ⟨by unfold goodChunks; decide,
   c3_exact_transfer_eof [[1]] [0, 0] 0 5 [0] [] (Window.new [5]) 3
     (by unfold goodChunks; decide) (by decide) (by simp)
     (by decide) (by decide) (by decide)⟩

theorem byteStream_read_one (x : Nat) (bs : List Nat) :
    (byteStream (x :: bs)).read 1 = (.ok [x], byteStream bs) := by
  cases bs with
  | nil => simp [byteStream, MockStream.read]
  | cons y ys =>
      simp [byteStream, MockStream.read]

theorem byteStream_eq_chunkStream (x : Nat) (bs : List Nat) :
    byteStream (x :: bs) = chunkStream [x :: bs] := by
  simp [byteStream, chunkStream]

/-- C7: reading the `Eos` pattern from a stream that is already at end-of-stream
yields `Ok(())` without touching the stream; reading `Eos` from a stream with at
least one remaining byte yields `Err(first_byte)`, and the stream advances by
exactly that one byte — the byte is recovered in the error rather than
discarded. -/
theorem c7_eos_first_byte :
    (∀ f : Nat, runPat .eosP (f + 1) (⟨[]⟩ : MockStream) = .ready ⟨[]⟩ (.ok ())) ∧
    (∀ (f b : Nat) (rest : List Nat),
      runPat .eosP (f + 2) (byteStream (b :: rest)) = .ready (byteStream rest) (.error b)) := by
  constructor
  · intro f
    have hrd : (⟨[]⟩ : MockStream).read (Window.new [0]).asRef.length = (.ok [], ⟨[]⟩) := by
      simp [MockStream.read]
    have hne : ((Window.new [0]).fill []).asRef ≠ [] := by
      rw [window_fill_nil, window_new_asRef]
      simp
    have hstep := runReadExact_step_eof f (⟨[]⟩ : MockStream) (Window.new [0]) ⟨[]⟩ hrd hne
    simp only [runPat, runReadEos, hstep]
  · intro f b rest
    have hsucc := runReadExact_chunks_success [b :: rest] [0] 0 (f + 2)
      (by intro c hc; simp at hc; subst hc; simp) (by simp) (by simp [totalLen])
      (by simp)
    rw [byteStream_eq_chunkStream]
    simp only [runPat, runReadEos]
    rw [show Window.new [0] = Window.mk [0] 0 ([0] : List Nat).length from rfl]
    rw [hsucc]
    have hdrop : dropBytesC [b :: rest] (([0] : List Nat).length - 0) =
        (if rest.isEmpty then [] else [rest]) := by
      cases rest <;> simp [dropBytesC]
    have htake : takeBytesC [b :: rest] (([0] : List Nat).length - 0) = [b] := by
      cases rest <;> simp [takeBytesC]
    rw [hdrop, htake]
    have hbs : chunkStream (if rest.isEmpty then [] else [rest]) = byteStream rest := by
      cases rest <;> simp [chunkStream, byteStream]
    rw [hbs]
    simp

theorem runReadLine_step_eos (f : Nat) (r r' : MockStream) (buf : List Nat)
    (hrd : r.read 1 = (.ok [], r')) :
    runReadLine (f + 1) r buf =
      (if buf = [] then .errored (r', .unexpectedEof)
       else if utf8Valid buf then .ready (r', buf) else .errored (r', .invalidInput)) := by
  simp only [runReadLine]
  split
  · next r'' heq => rw [hrd] at heq; simp at heq
  · next k r'' hnm heq => rw [hrd] at heq; simp at heq
  · next r'' heq => rw [hrd] at heq; simp at heq; rw [heq]
  · next x t r'' heq => rw [hrd] at heq; simp at heq

theorem runReadLine_step_byte (f : Nat) (r r' : MockStream) (buf : List Nat) (x : Nat)
    (t : List Nat) (hrd : r.read 1 = (.ok (x :: t), r')) :
    runReadLine (f + 1) r buf =
      (if x = 10 then
        (if utf8Valid (buf ++ [x]) then .ready (r', buf ++ [x])
         else .errored (r', .invalidInput))
       else runReadLine f r' (buf ++ [x])) := by
  simp only [runReadLine]
  split
  · next r'' heq => rw [hrd] at heq; simp at heq
  · next k r'' hnm heq => rw [hrd] at heq; simp at heq
  · next r'' heq => rw [hrd] at heq; simp at heq
  · next x' t' r'' heq =>
      rw [hrd] at heq
      simp at heq
      obtain ⟨⟨h1, h2⟩, h3⟩ := heq
      subst h1
      subst h3
      rfl

theorem runReadLine_trailing :
    ∀ (bs acc : List Nat) (fuel : Nat),
      (10 : Nat) ∉ bs →
      acc ++ bs ≠ [] →
      bs.length + 1 ≤ fuel →
      runReadLine fuel (byteStream bs) acc =
        (if utf8Valid (acc ++ bs) then .ready (⟨[]⟩, acc ++ bs)
         else .errored (⟨[]⟩, .invalidInput)) := by
  intro bs
  induction bs with
  | nil =>
      intro acc fuel hnotin hne hf
      obtain ⟨f, rfl⟩ : ∃ f, fuel = f + 1 := ⟨fuel - 1, by omega⟩
      have hrd : (byteStream []).read 1 = (.ok [], ⟨[]⟩) := by
        simp [byteStream, MockStream.read]
      rw [runReadLine_step_eos f _ _ acc hrd]
      simp at hne
      rw [if_neg hne]
      simp
  | cons x bs ih =>
      intro acc fuel hnotin hne hf
      obtain ⟨f, rfl⟩ : ∃ f, fuel = f + 1 := ⟨fuel - 1, by omega⟩
      have hx : x ≠ 10 := by
        intro hx
        exact hnotin (by simp [hx])
      rw [runReadLine_step_byte f _ _ acc x [] (byteStream_read_one x bs), if_neg hx]
      have := ih (acc ++ [x]) f (fun hmem => hnotin (by simp [hmem])) (by simp)
        (by simp at hf ⊢; omega)
      rw [this]
      simp

/-- C10: reading the `Line` pattern from a stream that is already at
end-of-stream fails with an `UnexpectedEof` error rather than yielding an empty
line, while a non-empty unterminated trailing line (valid UTF-8, no newline) at
end-of-stream is returned as a valid line. -/
theorem c10_line_at_eof (bs : List Nat) (f fuel : Nat)
    (hne : bs ≠ []) (hnotin : (10 : Nat) ∉ bs) (hva : utf8Valid bs = true)
    (hf : bs.length + 1 ≤ fuel) :
    runPat .lineP (f + 1) (⟨[]⟩ : MockStream) = .errored ⟨[]⟩ .unexpectedEof ∧
    runPat .lineP fuel (byteStream bs) = .ready ⟨[]⟩ bs := by
  constructor
  · have hrd : (⟨[]⟩ : MockStream).read 1 = (.ok [], ⟨[]⟩) := by
      simp [MockStream.read]
    simp only [runPat]
    rw [runReadLine_step_eos f _ _ [] hrd, if_pos rfl]
  · have := runReadLine_trailing bs [] fuel hnotin (by simpa using hne) hf
    simp only [runPat]
    rw [this]
    simp [hva]

/-- C10 witness: the empty stream errors, and the two-byte unterminated line
`hi` is returned whole. -/
theorem c10_line_at_eof_witness :
    (([104, 105] : List Nat) ≠ [] ∧ (10 : Nat) ∉ ([104, 105] : List Nat) ∧
      utf8Valid [104, 105] = true) ∧
    (runPat .lineP 1 (⟨[]⟩ : MockStream) = .errored ⟨[]⟩ .unexpectedEof ∧
      runPat .lineP 3 (byteStream [104, 105]) = .ready ⟨[]⟩ [104, 105]) :=
  ⟨⟨by decide, by decide, by decide⟩,
   c10_line_at_eof [104, 105] 0 3 (by decide) (by decide) (by decide) (by decide)⟩

theorem reaches_step (r : MockStream) (cap : Nat) : Reaches r (r.read cap).2 :=
  Relation.ReflTransGen.single ⟨cap, rfl⟩

theorem streamKept_mono {α ε : Type} (r r' : MockStream)
    (x : IoRes (MockStream × α) (MockStream × ε)) (hr : Reaches r r')
    (hx : streamKept r' x) : streamKept r x := by
  match x with
  | .ready (r'', v) => exact hr.trans hx
  | .errored (r'', e) => exact hr.trans hx
  | .timeout => trivial
  | .panicked => trivial

theorem pollKept_mono {α : Type} (r r' : MockStream) (x : PollOut α) (hr : Reaches r r')
    (hx : pollKept r' x) : pollKept r x := by
  match x with
  | .ready r'' v => exact hr.trans hx
  | .errored r'' e => exact hr.trans hx
  | .timeout => trivial
  | .panicked => trivial

theorem sinkKept_mono {α ε : Type} (s s' : MockSink)
    (x : IoRes (MockSink × α) (MockSink × ε)) (hs : SinkReaches s s')
    (hx : sinkKept s' x) : sinkKept s x := by
  match x with
  | .ready (s'', v) => exact hs.trans hx
  | .errored (s'', e) => exact hs.trans hx
  | .timeout => trivial
  | .panicked => trivial

theorem pollKept_seq {α β : Type} (r : MockStream) (x : PollOut α)
    (g : MockStream → α → PollOut β) (hx : pollKept r x)
    (hg : ∀ r' v, x = .ready r' v → pollKept r' (g r' v)) :
    pollKept r (x.seq g) := by
  match x with
  | .ready r' v => exact pollKept_mono r r' _ hx (hg r' v rfl)
  | .errored r' e => exact hx
  | .timeout => trivial
  | .panicked => trivial

theorem runReadExact_step_panic (f : Nat) (r : MockStream) (w : Window) (bs : List Nat)
    (r' : MockStream) (hrd : r.read w.asRef.length = (.ok bs, r'))
    (hok : ¬(bs.length = 0 ∧ (w.fill bs).asRef ≠ []))
    (hskip : (w.fill bs).skip bs.length = none) :
    runReadExact (f + 1) r w = .panicked := by
  simp only [runReadExact]
  split
  · next r'' heq => rw [hrd] at heq; simp at heq
  · next k' r'' hnm heq => rw [hrd] at heq; simp at heq
  · next bs' r'' heq =>
      rw [hrd] at heq
      simp at heq
      obtain ⟨h1, h2⟩ := heq
      subst h1
      subst h2
      rw [if_neg hok]
      split
      · next heq2 => rfl
      · next w2' heq2 => rw [hskip] at heq2; cases heq2

theorem runReadExact_keeps :
    ∀ (fuel : Nat) (r : MockStream) (w : Window), streamKept r (runReadExact fuel r w) := by
  intro fuel
  induction fuel with
  | zero => intro r w; trivial
  | succ f ih =>
      intro r w
      rcases hrd : r.read w.asRef.length with ⟨q, r1⟩
      have hstep : Reaches r r1 := by
        have := reaches_step r w.asRef.length
        rw [hrd] at this
        exact this
      match q with
      | .error k =>
          by_cases hk : k = .wouldBlock
          · subst hk
            rw [runReadExact_step_block f r w r1 hrd]
            exact streamKept_mono r r1 _ hstep (ih r1 w)
          · rw [runReadExact_step_err f r w k r1 hrd hk]
            exact hstep
      | .ok bs =>
          by_cases hc : bs.length = 0 ∧ (w.fill bs).asRef ≠ []
          · have hbs : bs = [] := List.length_eq_zero.mp hc.1
            subst hbs
            rw [runReadExact_step_eof f r w r1 hrd hc.2]
            exact hstep
          · rcases hskip : (w.fill bs).skip bs.length with _ | w2
            · rw [runReadExact_step_panic f r w bs r1 hrd hc hskip]
              trivial
            · rw [runReadExact_step_ok f r w bs r1 hrd hc w2 hskip]
              by_cases hemp : w2.asRef = []
              · rw [if_pos hemp]
                exact hstep
              · rw [if_neg hemp]
                exact streamKept_mono r r1 _ hstep (ih r1 w2)

theorem runReadLine_step_block (f : Nat) (r r' : MockStream) (buf : List Nat)
    (hrd : r.read 1 = (.error .wouldBlock, r')) :
    runReadLine (f + 1) r buf = runReadLine f r' buf := by
  simp only [runReadLine]
  split
  · next r'' heq => rw [hrd] at heq; simp at heq; rw [heq]
  · next k r'' hnm heq => rw [hrd] at heq; simp at heq; exact absurd heq.1.symm hnm
  · next r'' heq => rw [hrd] at heq; simp at heq
  · next x t r'' heq => rw [hrd] at heq; simp at heq

theorem runReadLine_step_err (f : Nat) (r r' : MockStream) (buf : List Nat) (k : ErrorKind)
    (hrd : r.read 1 = (.error k, r')) (hk : k ≠ .wouldBlock) :
    runReadLine (f + 1) r buf = .errored (r', k) := by
  simp only [runReadLine]
  split
  · next r'' heq => rw [hrd] at heq; simp at heq; exact absurd heq.1 hk
  · next k' r'' hnm heq => rw [hrd] at heq; simp at heq; rw [← heq.1, ← heq.2]
  · next r'' heq => rw [hrd] at heq; simp at heq
  · next x t r'' heq => rw [hrd] at heq; simp at heq

theorem runReadLine_keeps :
    ∀ (fuel : Nat) (r : MockStream) (buf : List Nat), streamKept r (runReadLine fuel r buf) := by
  intro fuel
  induction fuel with
  | zero => intro r buf; trivial
  | succ f ih =>
      intro r buf
      rcases hrd : r.read 1 with ⟨q, r1⟩
      have hstep : Reaches r r1 := by
        have := reaches_step r 1
        rw [hrd] at this
        exact this
      match q with
      | .error k =>
          by_cases hk : k = .wouldBlock
          · subst hk
            rw [runReadLine_step_block f r r1 buf hrd]
            exact streamKept_mono r r1 _ hstep (ih r1 buf)
          · rw [runReadLine_step_err f r r1 buf k hrd hk]
            exact hstep
      | .ok [] =>
          rw [runReadLine_step_eos f r r1 buf hrd]
          by_cases h1 : buf = []
          · rw [if_pos h1]
            exact hstep
          · rw [if_neg h1]
            by_cases h2 : utf8Valid buf = true
            · rw [if_pos h2]
              exact hstep
            · rw [if_neg h2]
              exact hstep
      | .ok (x :: t) =>
          rw [runReadLine_step_byte f r r1 buf x t hrd]
          by_cases h1 : x = 10
          · rw [if_pos h1]
            by_cases h2 : utf8Valid (buf ++ [x]) = true
            · rw [if_pos h2]
              exact hstep
            · rw [if_neg h2]
              exact hstep
          · rw [if_neg h1]
            exact streamKept_mono r r1 _ hstep (ih r1 (buf ++ [x]))

theorem runReadUntil_step_block {τ : Type} (pred : List Nat → Bool → Except ErrorKind (Option τ))
    (maxB f : Nat) (r r' : MockStream) (w : Window)
    (hrd : r.read w.asRef.length = (.error .wouldBlock, r')) :
    runReadUntil pred maxB (f + 1) r w = runReadUntil pred maxB f r' w := by
  simp only [runReadUntil]
  split
  · next r'' heq => rw [hrd] at heq; simp at heq; rw [heq]
  · next k r'' hnm heq => rw [hrd] at heq; simp at heq; exact absurd heq.1.symm hnm
  · next bs r'' heq => rw [hrd] at heq; simp at heq

theorem runReadUntil_step_err {τ : Type} (pred : List Nat → Bool → Except ErrorKind (Option τ))
    (maxB f : Nat) (r r' : MockStream) (w : Window) (k : ErrorKind)
    (hrd : r.read w.asRef.length = (.error k, r')) (hk : k ≠ .wouldBlock) :
    runReadUntil pred maxB (f + 1) r w = .errored (r', k) := by
  simp only [runReadUntil]
  split
  · next r'' heq => rw [hrd] at heq; simp at heq; exact absurd heq.1 hk
  · next k' r'' hnm heq => rw [hrd] at heq; simp at heq; rw [← heq.1, ← heq.2]
  · next bs r'' heq => rw [hrd] at heq; simp at heq

theorem runReadUntil_step_skip_panic {τ : Type}
    (pred : List Nat → Bool → Except ErrorKind (Option τ))
    (maxB f : Nat) (r r' : MockStream) (w : Window) (bs : List Nat)
    (hrd : r.read w.asRef.length = (.ok bs, r'))
    (hskip : (w.fill bs).skip bs.length = none) :
    runReadUntil pred maxB (f + 1) r w = .panicked := by
  simp only [runReadUntil]
  split
  · next r'' heq => rw [hrd] at heq; simp at heq
  · next k' r'' hnm heq => rw [hrd] at heq; simp at heq
  · next bs' r'' heq =>
      rw [hrd] at heq
      simp at heq
      obtain ⟨h1, h2⟩ := heq
      subst h1
      subst h2
      split
      · next heq2 => rfl
      · next b heq2 => rw [hskip] at heq2; cases heq2

theorem runReadUntil_step_ok {τ : Type} (pred : List Nat → Bool → Except ErrorKind (Option τ))
    (maxB f : Nat) (r r' : MockStream) (w : Window) (bs : List Nat) (b : Window)
    (hrd : r.read w.asRef.length = (.ok bs, r'))
    (hskip : (w.fill bs).skip bs.length = some b) :
    runReadUntil pred maxB (f + 1) r w =
      (match pred (b.inner.take b.start) (bs.length = 0) with
       | .error e => .errored (r', e)
       | .ok (some v) => .ready (r', (b.inner.take b.start, v))
       | .ok none =>
           if bs.length = 0 then .errored (r', .unexpectedEof)
           else if b.asRef = [] then
             if min (b.start * 2) maxB = b.inner.length then .errored (r', .other)
             else
               match (Window.new (listResize b.inner (b.start * 2))).skip b.start with
               | none => .panicked
               | some b' => runReadUntil pred maxB f r' b'
           else runReadUntil pred maxB f r' b) := by
  simp only [runReadUntil]
  split
  · next r'' heq => rw [hrd] at heq; simp at heq
  · next k' r'' hnm heq => rw [hrd] at heq; simp at heq
  · next bs' r'' heq =>
      rw [hrd] at heq
      simp at heq
      obtain ⟨h1, h2⟩ := heq
      subst h1
      subst h2
      split
      · next heq2 => rw [hskip] at heq2; cases heq2
      · next b2 heq2 =>
          rw [hskip] at heq2
          cases heq2
          rfl

theorem runReadUntil_keeps {τ : Type} (pred : List Nat → Bool → Except ErrorKind (Option τ))
    (maxB : Nat) :
    ∀ (fuel : Nat) (r : MockStream) (w : Window),
      streamKept r (runReadUntil pred maxB fuel r w) := by
  intro fuel
  induction fuel with
  | zero => intro r w; trivial
  | succ f ih =>
      intro r w
      rcases hrd : r.read w.asRef.length with ⟨q, r1⟩
      have hstep : Reaches r r1 := by
        have := reaches_step r w.asRef.length
        rw [hrd] at this
        exact this
      match q with
      | .error k =>
          by_cases hk : k = .wouldBlock
          · subst hk
            rw [runReadUntil_step_block pred maxB f r r1 w hrd]
            exact streamKept_mono r r1 _ hstep (ih r1 w)
          · rw [runReadUntil_step_err pred maxB f r r1 w k hrd hk]
            exact hstep
      | .ok bs =>
          rcases hskip : (w.fill bs).skip bs.length with _ | b
          · rw [runReadUntil_step_skip_panic pred maxB f r r1 w bs hrd hskip]
            trivial
          · rw [runReadUntil_step_ok pred maxB f r r1 w bs b hrd hskip]
            split
            · exact hstep
            · exact hstep
            · split
              · exact hstep
              · split
                · split
                  · exact hstep
                  · split
                    · trivial
                    · exact streamKept_mono r r1 _ hstep (ih r1 _)
                · exact streamKept_mono r r1 _ hstep (ih r1 b)

theorem runWriteAll_step_panic (f : Nat) (s : MockSink) (b : Window) (n : Nat)
    (s' : MockSink) (hwr : s.write b.asRef = (.ok n, s'))
    (hskip : b.skip n = none) :
    runWriteAll (f + 1) s b = .panicked := by
  simp only [runWriteAll]
  split
  · next s'' heq => rw [hwr] at heq; simp at heq
  · next k' s'' hnm heq => rw [hwr] at heq; simp at heq
  · next n' s'' heq =>
      rw [hwr] at heq
      simp at heq
      obtain ⟨h1, h2⟩ := heq
      subst h1
      subst h2
      split
      · next heq2 => rfl
      · next b2 heq2 => rw [hskip] at heq2; cases heq2

theorem sink_step (s : MockSink) (bs : List Nat) : SinkReaches s (s.write bs).2 :=
  Relation.ReflTransGen.single ⟨bs, rfl⟩

theorem runWriteAll_keeps :
    ∀ (fuel : Nat) (s : MockSink) (b : Window), sinkKept s (runWriteAll fuel s b) := by
  intro fuel
  induction fuel with
  | zero => intro s b; trivial
  | succ f ih =>
      intro s b
      rcases hwr : s.write b.asRef with ⟨q, s1⟩
      have hstep : SinkReaches s s1 := by
        have := sink_step s b.asRef
        rw [hwr] at this
        exact this
      match q with
      | .error k =>
          by_cases hk : k = .wouldBlock
          · subst hk
            rw [runWriteAll_step_block f s b s1 hwr]
            exact sinkKept_mono s s1 _ hstep (ih s1 b)
          · rw [runWriteAll_step_err f s b k s1 hwr hk]
            exact hstep
      | .ok n =>
          rcases hskip : b.skip n with _ | b2
          · rw [runWriteAll_step_panic f s b n s1 hwr hskip]
            trivial
          · rw [runWriteAll_step_ok f s b n s1 hwr b2 hskip]
            by_cases hemp : b2.asRef = []
            · rw [if_pos hemp]
              exact hstep
            · rw [if_neg hemp]
              by_cases hz : n = 0
              · rw [if_pos hz]
                exact hstep
              · rw [if_neg hz]
                exact sinkKept_mono s s1 _ hstep (ih s1 b2)

theorem runReadEos_keeps (fuel : Nat) (r : MockStream) :
    streamKept r (runReadEos fuel r) := by
  have h := runReadExact_keeps fuel r (Window.new [0])
  unfold runReadEos
  rcases hres : runReadExact fuel r (Window.new [0]) with ⟨r', v⟩ | ⟨r', bb, k⟩ | _ | _
  · rw [hres] at h
    exact h
  · rw [hres] at h
    match k with
    | .wouldBlock => exact h
    | .unexpectedEof => exact h
    | .invalidData => exact h
    | .invalidInput => exact h
    | .other => exact h
  · trivial
  · trivial

theorem readFixnum_keeps (s : FixnumSpec) (fuel : Nat) (r : MockStream) :
    streamKept r (readFixnum s fuel r) := by
  have h := runReadExact_keeps fuel r (Window.new (List.replicate s.nbytes 0))
  unfold readFixnum
  rcases hres : runReadExact fuel r (Window.new (List.replicate s.nbytes 0)) with
    ⟨r', v⟩ | ⟨r', bb, k⟩ | _ | _ <;> rw [hres] at h <;> first | exact h | trivial

theorem runPat_keeps {α : Type} (p : Pat α) :
    ∀ (fuel : Nat) (r : MockStream), pollKept r (runPat p fuel r) := by
  induction p with
  | bufP bytes =>
      intro fuel r
      have h := runReadExact_keeps fuel r (Window.new bytes)
      simp only [runPat]
      rcases hres : runReadExact fuel r (Window.new bytes) with
        ⟨r', v⟩ | ⟨r', bb, k⟩ | _ | _ <;> simp only [hres] <;> rw [hres] at h <;>
        first | exact h | trivial
  | fixnumP s =>
      intro fuel r
      have h := readFixnum_keeps s fuel r
      simp only [runPat]
      rcases hres : readFixnum s fuel r with ⟨r', v⟩ | ⟨r', k⟩ | _ | _ <;>
        simp only [hres] <;> rw [hres] at h <;> first | exact h | trivial
  | eosP =>
      intro fuel r
      have h := runReadEos_keeps fuel r
      simp only [runPat]
      rcases hres : runReadEos fuel r with ⟨r', v⟩ | ⟨r', k⟩ | _ | _ <;>
        simp only [hres] <;> rw [hres] at h <;> first | exact h | trivial
  | lineP =>
      intro fuel r
      have h := runReadLine_keeps fuel r []
      simp only [runPat]
      rcases hres : runReadLine fuel r [] with ⟨r', v⟩ | ⟨r', k⟩ | _ | _ <;>
        simp only [hres] <;> rw [hres] at h <;> first | exact h | trivial
  | untilP pred minB maxB =>
      intro fuel r
      have h := runReadUntil_keeps pred maxB fuel r (Window.new (List.replicate minB 0))
      simp only [runPat]
      rcases hres : runReadUntil pred maxB fuel r (Window.new (List.replicate minB 0)) with
        ⟨r', v⟩ | ⟨r', k⟩ | _ | _ <;> simp only [hres] <;> rw [hres] at h <;>
        first | exact h | trivial
  | resultP v =>
      intro fuel r
      cases v with
      | ok a => exact Relation.ReflTransGen.refl
      | error k => exact Relation.ReflTransGen.refl
  | mapP p f ihp =>
      intro fuel r
      simp only [runPat]
      refine pollKept_seq r _ _ (ihp fuel r) ?_
      intro r' v _
      exact Relation.ReflTransGen.refl
  | andThenP p f ihp ihf =>
      intro fuel r
      simp only [runPat]
      refine pollKept_seq r _ _ (ihp fuel r) ?_
      intro r' v _
      exact ihf v fuel r'
  | thenP p f ihp ihf =>
      intro fuel r
      simp only [runPat]
      have hp := ihp fuel r
      rcases hres : runPat p fuel r with ⟨r', v⟩ | ⟨r', k⟩ | _ | _ <;>
        simp only [hres] <;> rw [hres] at hp
      · exact pollKept_mono r r' _ hp (ihf (.ok v) fuel r')
      · exact pollKept_mono r r' _ hp (ihf (.error k) fuel r')
      · trivial
      · trivial
  | orElseP p f ihp ihf =>
      intro fuel r
      simp only [runPat]
      have hp := ihp fuel r
      rcases hres : runPat p fuel r with ⟨r', v⟩ | ⟨r', k⟩ | _ | _ <;>
        simp only [hres] <;> rw [hres] at hp
      · exact hp
      · exact pollKept_mono r r' _ hp (ihf k fuel r')
      · trivial
      · trivial
  | orP p q ihp ihq =>
      intro fuel r
      simp only [runPat]
      have hp := ihp fuel r
      rcases hres : runPat p fuel r with ⟨r', v⟩ | ⟨r', k⟩ | _ | _ <;>
        simp only [hres] <;> rw [hres] at hp
      · exact hp
      · exact pollKept_mono r r' _ hp (ihq fuel r')
      · trivial
      · trivial
  | chainP p q ihp ihq =>
      intro fuel r
      simp only [runPat]
      refine pollKept_seq r _ _ (ihp fuel r) ?_
      intro r1 v1 _
      refine pollKept_seq r1 _ _ (ihq fuel r1) ?_
      intro r2 v2 _
      exact Relation.ReflTransGen.refl
  | noneP =>
      intro fuel r
      exact Relation.ReflTransGen.refl
  | someP p ihp =>
      intro fuel r
      simp only [runPat]
      refine pollKept_seq r _ _ (ihp fuel r) ?_
      intro r' v _
      exact Relation.ReflTransGen.refl
  | tuple2P p q ihp ihq =>
      intro fuel r
      simp only [runPat]
      refine pollKept_seq r _ _ (ihp fuel r) ?_
      intro r1 v1 _
      refine pollKept_seq r1 _ _ (ihq fuel r1) ?_
      intro r2 v2 _
      exact Relation.ReflTransGen.refl
  | tuple3P p1 p2 p3 ih1 ih2 ih3 =>
      intro fuel r
      simp only [runPat]
      refine pollKept_seq r _ _ (ih1 fuel r) ?_
      intro r1 v1 _
      refine pollKept_seq r1 _ _ (ih2 fuel r1) ?_
      intro r2 v2 _
      refine pollKept_seq r2 _ _ (ih3 fuel r2) ?_
      intro r3 v3 _
      exact Relation.ReflTransGen.refl
  | tuple4P p1 p2 p3 p4 ih1 ih2 ih3 ih4 =>
      intro fuel r
      simp only [runPat]
      refine pollKept_seq r _ _ (ih1 fuel r) ?_
      intro r1 v1 _
      refine pollKept_seq r1 _ _ (ih2 fuel r1) ?_
      intro r2 v2 _
      refine pollKept_seq r2 _ _ (ih3 fuel r2) ?_
      intro r3 v3 _
      refine pollKept_seq r3 _ _ (ih4 fuel r3) ?_
      intro r4 v4 _
      exact Relation.ReflTransGen.refl
  | tuple5P p1 p2 p3 p4 p5 ih1 ih2 ih3 ih4 ih5 =>
      intro fuel r
      simp only [runPat]
      refine pollKept_seq r _ _ (ih1 fuel r) ?_
      intro r1 v1 _
      refine pollKept_seq r1 _ _ (ih2 fuel r1) ?_
      intro r2 v2 _
      refine pollKept_seq r2 _ _ (ih3 fuel r2) ?_
      intro r3 v3 _
      refine pollKept_seq r3 _ _ (ih4 fuel r3) ?_
      intro r4 v4 _
      refine pollKept_seq r4 _ _ (ih5 fuel r4) ?_
      intro r5 v5 _
      exact Relation.ReflTransGen.refl
  | tuple6P p1 p2 p3 p4 p5 p6 ih1 ih2 ih3 ih4 ih5 ih6 =>
      intro fuel r
      simp only [runPat]
      refine pollKept_seq r _ _ (ih1 fuel r) ?_
      intro r1 v1 _
      refine pollKept_seq r1 _ _ (ih2 fuel r1) ?_
      intro r2 v2 _
      refine pollKept_seq r2 _ _ (ih3 fuel r2) ?_
      intro r3 v3 _
      refine pollKept_seq r3 _ _ (ih4 fuel r3) ?_
      intro r4 v4 _
      refine pollKept_seq r4 _ _ (ih5 fuel r4) ?_
      intro r5 v5 _
      refine pollKept_seq r5 _ _ (ih6 fuel r5) ?_
      intro r6 v6 _
      exact Relation.ReflTransGen.refl
  | tuple7P p1 p2 p3 p4 p5 p6 p7 ih1 ih2 ih3 ih4 ih5 ih6 ih7 =>
      intro fuel r
      simp only [runPat]
      refine pollKept_seq r _ _ (ih1 fuel r) ?_
      intro r1 v1 _
      refine pollKept_seq r1 _ _ (ih2 fuel r1) ?_
      intro r2 v2 _
      refine pollKept_seq r2 _ _ (ih3 fuel r2) ?_
      intro r3 v3 _
      refine pollKept_seq r3 _ _ (ih4 fuel r3) ?_
      intro r4 v4 _
      refine pollKept_seq r4 _ _ (ih5 fuel r4) ?_
      intro r5 v5 _
      refine pollKept_seq r5 _ _ (ih6 fuel r5) ?_
      intro r6 v6 _
      refine pollKept_seq r6 _ _ (ih7 fuel r6) ?_
      intro r7 v7 _
      exact Relation.ReflTransGen.refl
  | tuple8P p1 p2 p3 p4 p5 p6 p7 p8 ih1 ih2 ih3 ih4 ih5 ih6 ih7 ih8 =>
      intro fuel r
      simp only [runPat]
      refine pollKept_seq r _ _ (ih1 fuel r) ?_
      intro r1 v1 _
      refine pollKept_seq r1 _ _ (ih2 fuel r1) ?_
      intro r2 v2 _
      refine pollKept_seq r2 _ _ (ih3 fuel r2) ?_
      intro r3 v3 _
      refine pollKept_seq r3 _ _ (ih4 fuel r3) ?_
      intro r4 v4 _
      refine pollKept_seq r4 _ _ (ih5 fuel r4) ?_
      intro r5 v5 _
      refine pollKept_seq r5 _ _ (ih6 fuel r5) ?_
      intro r6 v6 _
      refine pollKept_seq r6 _ _ (ih7 fuel r6) ?_
      intro r7 v7 _
      refine pollKept_seq r7 _ _ (ih8 fuel r7) ?_
      intro r8 v8 _
      exact Relation.ReflTransGen.refl
  | tuple9P p1 p2 p3 p4 p5 p6 p7 p8 p9 ih1 ih2 ih3 ih4 ih5 ih6 ih7 ih8 ih9 =>
      intro fuel r
      simp only [runPat]
      refine pollKept_seq r _ _ (ih1 fuel r) ?_
      intro r1 v1 _
      refine pollKept_seq r1 _ _ (ih2 fuel r1) ?_
      intro r2 v2 _
      refine pollKept_seq r2 _ _ (ih3 fuel r2) ?_
      intro r3 v3 _
      refine pollKept_seq r3 _ _ (ih4 fuel r3) ?_
      intro r4 v4 _
      refine pollKept_seq r4 _ _ (ih5 fuel r4) ?_
      intro r5 v5 _
      refine pollKept_seq r5 _ _ (ih6 fuel r5) ?_
      intro r6 v6 _
      refine pollKept_seq r6 _ _ (ih7 fuel r6) ?_
      intro r7 v7 _
      refine pollKept_seq r7 _ _ (ih8 fuel r7) ?_
      intro r8 v8 _
      refine pollKept_seq r8 _ _ (ih9 fuel r8) ?_
      intro r9 v9 _
      exact Relation.ReflTransGen.refl
  | tuple10P p1 p2 p3 p4 p5 p6 p7 p8 p9 p10 ih1 ih2 ih3 ih4 ih5 ih6 ih7 ih8 ih9 ih10 =>
      intro fuel r
      simp only [runPat]
      refine pollKept_seq r _ _ (ih1 fuel r) ?_
      intro r1 v1 _
      refine pollKept_seq r1 _ _ (ih2 fuel r1) ?_
      intro r2 v2 _
      refine pollKept_seq r2 _ _ (ih3 fuel r2) ?_
      intro r3 v3 _
      refine pollKept_seq r3 _ _ (ih4 fuel r3) ?_
      intro r4 v4 _
      refine pollKept_seq r4 _ _ (ih5 fuel r4) ?_
      intro r5 v5 _
      refine pollKept_seq r5 _ _ (ih6 fuel r5) ?_
      intro r6 v6 _
      refine pollKept_seq r6 _ _ (ih7 fuel r6) ?_
      intro r7 v7 _
      refine pollKept_seq r7 _ _ (ih8 fuel r7) ?_
      intro r8 v8 _
      refine pollKept_seq r8 _ _ (ih9 fuel r8) ?_
      intro r9 v9 _
      refine pollKept_seq r9 _ _ (ih10 fuel r9) ?_
      intro r10 v10 _
      exact Relation.ReflTransGen.refl

/-- **C1.** For every pattern operation bound to a stream, every terminal outcome
hands the stream back to the caller: a successful poll yields the (possibly
advanced) bound stream paired with the value, and every failing poll yields an
error carrying that same bound stream — no error path loses or replaces the
stream (`Reaches` says the returned stream is the bound one threaded through the
operation's own read calls).  The write side (`WriteAll` bound to a sink)
satisfies the same ownership discipline. -/
theorem c1_stream_always_returned :
    (∀ (α : Type) (p : Pat α) (fuel : Nat) (r r' : MockStream),
        ((∃ v, runPat p fuel r = .ready r' v) ∨ (∃ k, runPat p fuel r = .errored r' k)) →
        Reaches r r') ∧
    (∀ (fuel : Nat) (s s' : MockSink) (b : Window),
        ((∃ v, runWriteAll fuel s b = .ready (s', v)) ∨
         (∃ e, runWriteAll fuel s b = .errored (s', e))) →
        SinkReaches s s') := by
  constructor
  · intro α p fuel r r' h
    have hk := runPat_keeps p fuel r
    rcases h with ⟨v, hv⟩ | ⟨k, hke⟩
    · rw [hv] at hk; exact hk
    · rw [hke] at hk; exact hk
  · intro fuel s s' b h
    have hk := runWriteAll_keeps fuel s b
    rcases h with ⟨v, hv⟩ | ⟨e, he⟩
    · rw [hv] at hk; exact hk
    · rw [he] at hk; exact hk

theorem c1_stream_always_returned_witness :
    Reaches (chunkStream [[7]]) (chunkStream []) ∧
    SinkReaches (MockSink.mk [SinkEvent.accept 1] []) (MockSink.mk [] [5]) :=
  ⟨c1_stream_always_returned.1 (List Nat) (.bufP [0]) 1 (chunkStream [[7]]) (chunkStream [])
      (Or.inl ⟨[7], rfl⟩),
    c1_stream_always_returned.2 1 (MockSink.mk [SinkEvent.accept 1] []) (MockSink.mk [] [5])
      (Window.new [5]) (Or.inl ⟨[5], rfl⟩)⟩
